import Mathlib

/-!
Shallow embedding of the Session Reconciliation & Traffic Delta Engine of the
OpenVPN server dashboard (src/app.py), together with proofs of the testable
properties stated in its specification.

Modelling conventions:
* timestamps are natural numbers (seconds); SQLite TIMESTAMP ordering becomes
  the usual order on Nat;
* byte counters are integers (Python ints are unbounded);
* the `sessions` table is a `List SessionRow` in rowid order, the
  `traffic_history` table a `List TrafficRow` in rowid order (rows are only
  ever appended, so list order is insertion order);
* `datetime.strptime` is abstracted as a parameter `pd : String → Option Nat`
  (the parser only needs "parses or defaults to now");
* log output (`logger.info` counter-reset messages) is modelled as an explicit
  list of `Anomaly` values.
-/

namespace OpenVPNStats

def commaStr : String := ","

def colonStr : String := ":"

def emptyStr : String := ""

def unknownPort : String := "unknown"

def clientListTag : String := "CLIENT_LIST"

def clientListHeaderTag : String := "CLIENT_LIST,Common Name"

def routingTableTag : String := "ROUTING_TABLE"

def routingTableHeaderTag : String := "ROUTING_TABLE,Virtual Address"

/-- A session observation, `dataclass VPNSession` in app.py. -/
structure VPNSession where
  username : String
  real_address : String
  real_address_port : String
  virtual_address : Option String
  bytes_received : Int
  bytes_sent : Int
  connected_since : Nat
  server_name : String
  disconnected_at : Option Nat
deriving Repr, DecidableEq

/-- `session.duration_seconds if session.disconnected_at else None`, the value
stored into the `session_duration` column by `save_session`. -/
def sessionDurationField (s : VPNSession) : Option Int :=
  s.disconnected_at.map (fun d => (d : Int) - (s.connected_since : Int))

/-- One row of the `sessions` table. -/
structure SessionRow where
  username : String
  server_name : String
  real_address : String
  real_address_port : String
  virtual_address : Option String
  bytes_received : Int
  bytes_sent : Int
  connected_since : Nat
  disconnected_at : Option Nat
  session_duration : Option Int
deriving Repr, DecidableEq

/-- The unique key of the partial index `idx_unique_active_session_v2`:
(username, server_name, real_address, real_address_port). -/
def rowKey (r : SessionRow) : String × String × String × String :=
  (r.username, r.server_name, r.real_address, r.real_address_port)

/-- The same key computed from an observation, as used by the `WHERE` clause of
`save_session`. -/
def obsKey (s : VPNSession) : String × String × String × String :=
  (s.username, s.server_name, s.real_address, s.real_address_port)

/-- The `UPDATE sessions SET ...` branch of `save_session`. -/
def updateSessionRow (r : SessionRow) (s : VPNSession) : SessionRow :=
  { r with
    bytes_received := s.bytes_received
    bytes_sent := s.bytes_sent
    virtual_address := s.virtual_address
    disconnected_at := s.disconnected_at
    session_duration := sessionDurationField s }

/-- The `INSERT INTO sessions ...` branch of `save_session`. -/
def insertSessionRow (s : VPNSession) : SessionRow :=
  { username := s.username
    server_name := s.server_name
    real_address := s.real_address
    real_address_port := s.real_address_port
    virtual_address := s.virtual_address
    bytes_received := s.bytes_received
    bytes_sent := s.bytes_sent
    connected_since := s.connected_since
    disconnected_at := s.disconnected_at
    session_duration := sessionDurationField s }

/-- `DatabaseManager.save_session`: look up the first active row with the
session's unique key; update it in place if found, otherwise append a new row.
(`fetchone` returns the first row in rowid order.) -/
def save_session : List SessionRow → VPNSession → List SessionRow
  | [], s => [insertSessionRow s]
  | r :: rest, s =>
    if rowKey r = obsKey s ∧ r.disconnected_at = none then
      updateSessionRow r s :: rest
    else
      r :: save_session rest s

/-- One row of the `traffic_history` table. -/
structure TrafficRow where
  server_name : String
  username : Option String
  session_key : Option String
  bytes_in : Int
  bytes_out : Int
  active_users : Nat
  timestamp : Nat
deriving Repr, DecidableEq

/-- `f"{session.username}:{session.real_address}:{session.real_address_port}"` -/
def sessionKeyOf (s : VPNSession) : String :=
  s.username ++ colonStr ++ s.real_address ++ colonStr ++ s.real_address_port

/-- The session key built for a disconnected DB row in `save_traffic_snapshot`. -/
def rowSessionKey (r : SessionRow) : String :=
  r.username ++ colonStr ++ r.real_address ++ colonStr ++ r.real_address_port

/-- Maximum of a list of timestamps (`SELECT MAX(timestamp) ...`). -/
def listMax : List Nat → Option Nat
  | [] => none
  | t :: ts =>
    match listMax ts with
    | none => some t
    | some m => some (max t m)

/-- Is this row a raw per-session sample for the given server
(`server_name = ? AND session_key IS NOT NULL`)? -/
def isRawFor (server : String) (r : TrafficRow) : Bool :=
  decide (r.server_name = server ∧ r.session_key ≠ none)

/-- `SELECT MAX(timestamp) FROM traffic_history WHERE server_name = ? AND
session_key IS NOT NULL`. -/
def lastRawTimestamp (h : List TrafficRow) (server : String) : Option Nat :=
  listMax ((h.filter (isRawFor server)).map (fun r => r.timestamp))

/-- The `prev_session_traffic` dictionary lookup of `save_traffic_snapshot`:
among the raw rows of this server written at the most recent raw-sample
timestamp, find the one for this session key (dict insertion overwrites, so
the last matching row wins). -/
def prevTraffic (h : List TrafficRow) (server : String) (key : String) :
    Option (Int × Int) :=
  match lastRawTimestamp h server with
  | none => none
  | some t =>
    ((h.filter (fun r =>
        decide (r.server_name = server ∧ r.session_key = some key ∧
          r.timestamp = t))).getLast?).map (fun r => (r.bytes_in, r.bytes_out))

/-- Per-direction delta for a currently active session (lines 324-344 of
app.py): no prior sample → full current value; otherwise difference, or the
full current value again on an apparent counter decrease. -/
def activeDelta (prev : Option (Int × Int)) (cur_in cur_out : Int) : Int × Int :=
  match prev with
  | none => (cur_in, cur_out)
  | some (p, q) =>
    ((if p ≤ cur_in then cur_in - p else cur_in),
     (if q ≤ cur_out then cur_out - q else cur_out))

/-- Per-direction delta for a session found disconnected this cycle (lines
361-374 of app.py): only ever non-negative, and requires a prior sample. -/
def discDelta (prev : Option (Int × Int)) (fin_in fin_out : Int) : Int × Int :=
  match prev with
  | none => (0, 0)
  | some (p, q) =>
    ((if p ≤ fin_in then fin_in - p else 0),
     (if q ≤ fin_out then fin_out - q else 0))

/-- A "Counter reset detected" log line: server, username, direction
(`true` = IN, `false` = OUT), previous and current counter value. -/
structure Anomaly where
  server_name : String
  username : String
  dirIn : Bool
  prev_value : Int
  cur_value : Int
deriving Repr, DecidableEq

/-- The counter-reset log lines emitted for one active session. -/
def activeAnomalies (server user : String) (prev : Option (Int × Int))
    (cur_in cur_out : Int) : List Anomaly :=
  match prev with
  | none => []
  | some (p, q) =>
    (if cur_in < p then [⟨server, user, true, p, cur_in⟩] else []) ++
    (if cur_out < q then [⟨server, user, false, q, cur_out⟩] else [])

/-- All counter-reset log lines emitted by one `save_traffic_snapshot` call. -/
def snapshotAnomalies (h : List TrafficRow) (server : String)
    (sessions : List VPNSession) : List Anomaly :=
  (sessions.map (fun s =>
    activeAnomalies server s.username (prevTraffic h server (sessionKeyOf s))
      s.bytes_received s.bytes_sent)).flatten

/-- The raw per-session sample row inserted for each active session. -/
def rawRowOf (server : String) (now : Nat) (s : VPNSession) : TrafficRow :=
  { server_name := server
    username := some s.username
    session_key := some (sessionKeyOf s)
    bytes_in := s.bytes_received
    bytes_out := s.bytes_sent
    active_users := 0
    timestamp := now }

/-- `total_delta_in`/`total_delta_out` accumulated by `save_traffic_snapshot`:
sum of active-session deltas plus sum of disconnected-session deltas. -/
def totalDeltas (h : List TrafficRow) (server : String)
    (sessions : List VPNSession) (disconnected : List SessionRow) : Int × Int :=
  (sessions.map (fun s =>
    activeDelta (prevTraffic h server (sessionKeyOf s))
      s.bytes_received s.bytes_sent)).sum
  + (disconnected.map (fun r =>
    discDelta (prevTraffic h server (rowSessionKey r))
      r.bytes_received r.bytes_sent)).sum

/-- `len(set(s.username for s in sessions))`. -/
def activeUsersCount (sessions : List VPNSession) : Nat :=
  ((sessions.map (fun s => s.username)).dedup).length

/-- The aggregated per-server delta row appended at the end of
`save_traffic_snapshot` (username and session_key NULL). -/
def aggRowOf (h : List TrafficRow) (server : String)
    (sessions : List VPNSession) (disconnected : List SessionRow) (now : Nat) :
    TrafficRow :=
  { server_name := server
    username := none
    session_key := none
    bytes_in := (totalDeltas h server sessions disconnected).1
    bytes_out := (totalDeltas h server sessions disconnected).2
    active_users := activeUsersCount sessions
    timestamp := now }

/-- `DatabaseManager.save_traffic_snapshot`: the previous-sample map is read
first, then one raw row per active session is inserted, then the aggregated
delta row. -/
def save_traffic_snapshot (h : List TrafficRow) (server : String)
    (sessions : List VPNSession) (disconnected : List SessionRow) (now : Nat) :
    List TrafficRow :=
  h ++ sessions.map (rawRowOf server now)
    ++ [aggRowOf h server sessions disconnected now]

/-! ### Snapshot parser (`OpenVPNParser.parse_status_file`)

The Python string primitives used by the parser (`split`, `rsplit`, `strip`,
`startswith`, `in`, `isdigit`, `int`) are given structural implementations
over `String.data` with the same behavior, so that concrete runs evaluate. -/

/-- `str.split(sep)` for a one-character separator. -/
def splitOnCharAux (sep : Char) : List Char → List Char → List String
  | acc, [] => [String.mk acc.reverse]
  | acc, c :: cs =>
    if c = sep then String.mk acc.reverse :: splitOnCharAux sep [] cs
    else splitOnCharAux sep (c :: acc) cs

/-- `str.split(sep)` for a one-character separator. -/
def splitOnChar (sep : Char) (s : String) : List String :=
  splitOnCharAux sep [] s.data

/-- `str.startswith(pre)`. -/
def strStartsWith (s pre : String) : Bool :=
  pre.data.isPrefixOf s.data

/-- `c in str`. -/
def strContains (s : String) (c : Char) : Bool :=
  s.data.contains c

/-- `str.strip()`. -/
def strTrim (s : String) : String :=
  String.mk (((s.data.dropWhile Char.isWhitespace).reverse.dropWhile
    Char.isWhitespace).reverse)

/-- Numeric value of a digit string (`int(s)` for `s.isdigit()` inputs). -/
def digitsToNat (l : List Char) : Nat :=
  l.foldl (fun n c => n * 10 + (c.toNat - (('0').toNat))) 0

/-- `str.isdigit()`-guarded integer parse of a counter field:
`int(parts[i]) if parts[i].isdigit() else 0`. -/
def parseCounter (s : String) : Int :=
  if s.data ≠ [] ∧ s.data.all Char.isDigit then (digitsToNat s.data : Int) else 0

/-- `":".join(parts)`. -/
def joinColon : List String → String
  | [] => emptyStr
  | [x] => x
  | x :: xs => x ++ colonStr ++ joinColon xs

/-- `real_address_with_port.rsplit(':', 1)` with the `'unknown'` port fallback
when no colon is present. -/
def splitAddressPort (s : String) : String × String :=
  if strContains s (':') then
    let parts := splitOnChar (':') s
    (joinColon parts.dropLast, parts.getLastD emptyStr)
  else (s, unknownPort)

/-- Build one observation from the comma-separated fields of a CLIENT_LIST
line that has at least 8 fields. `pd` abstracts `datetime.strptime`; an
unparseable timestamp defaults to `now` (`datetime.now()`). -/
def clientListSession (server : String) (pd : String → Option Nat) (now : Nat)
    (parts : List String) : VPNSession :=
  let ap := splitAddressPort (parts.getD 2 emptyStr)
  let v := parts.getD 3 emptyStr
  { username := parts.getD 1 emptyStr
    real_address := ap.1
    real_address_port := ap.2
    virtual_address := if v = emptyStr then none else some v
    bytes_received := parseCounter (parts.getD 5 emptyStr)
    bytes_sent := parseCounter (parts.getD 6 emptyStr)
    connected_since := (pd (parts.getD 7 emptyStr)).getD now
    server_name := server
    disconnected_at := none }

/-- The line loop of `parse_status_file`: collect CLIENT_LIST observations and
ROUTING_TABLE entries (username → virtual address) in file order. -/
def parseLines (server : String) (pd : String → Option Nat) (now : Nat) :
    List String → List VPNSession × List (String × String)
  | [] => ([], [])
  | line0 :: rest =>
    let line := strTrim line0
    let tail := parseLines server pd now rest
    if strStartsWith line clientListTag ∧ ¬ strStartsWith line clientListHeaderTag then
      let parts := splitOnChar (',') line
      if 8 ≤ parts.length then (clientListSession server pd now parts :: tail.1, tail.2)
      else tail
    else if strStartsWith line routingTableTag ∧ strContains line (',') ∧
        ¬ strStartsWith line routingTableHeaderTag then
      let parts := splitOnChar (',') line
      if 3 ≤ parts.length then (tail.1, (parts.getD 2 emptyStr, parts.getD 1 emptyStr) :: tail.2)
      else tail
    else tail

/-- Python dict semantics for the routing table: the last write for a username
wins. -/
def routingLookup (rt : List (String × String)) (user : String) : Option String :=
  ((rt.filter (fun p => decide (p.1 = user))).getLast?).map (fun p => p.2)

/-- The post-pass applying routing-table info as virtual-address fallback. -/
def applyRouting (rt : List (String × String)) (s : VPNSession) : VPNSession :=
  if s.virtual_address = none then
    match routingLookup rt s.username with
    | some v => { s with virtual_address := some v }
    | none => s
  else s

/-- `OpenVPNParser.parse_status_file`. `contents` is the status file: `none`
when the file is missing or unreadable (the function then returns the empty
list), otherwise its lines. -/
def parse_status_file (contents : Option (List String)) (server : String)
    (pd : String → Option Nat) (now : Nat) : List VPNSession :=
  match contents with
  | none => []
  | some lines =>
    let parsed := parseLines server pd now lines
    parsed.1.map (applyRouting parsed.2)

/-! ### Retention sweeper (`DatabaseManager.cleanup_old_data`) -/

/-- `disconnected_at IS NOT NULL AND disconnected_at < cutoff`. -/
def sessionExpired (cutoff : Nat) (r : SessionRow) : Bool :=
  match r.disconnected_at with
  | none => false
  | some d => decide (d < cutoff)

/-- `DatabaseManager.cleanup_old_data`: delete closed sessions older than the
session-retention cutoff and traffic rows older than the traffic cutoff. -/
def cleanup_old_data (store : List SessionRow) (h : List TrafficRow)
    (sessionsCutoff trafficCutoff : Nat) : List SessionRow × List TrafficRow :=
  (store.filter (fun r => ! sessionExpired sessionsCutoff r),
   h.filter (fun r => ! decide (r.timestamp < trafficCutoff)))

/-! ### Reconciler (`MultiServerStatsCollector.collect_stats`, one server) -/

/-- The key used by `collect_stats` to diff snapshots against the active set:
(username, real_address, real_address_port). -/
def collectKey (s : VPNSession) : String × String × String :=
  (s.username, s.real_address, s.real_address_port)

/-- The same key computed from a stored session row. -/
def rowCollectKey (r : SessionRow) : String × String × String :=
  (r.username, r.real_address, r.real_address_port)

/-- `get_active_sessions(server_name)`: rows with NULL `disconnected_at` for
this server. -/
def dbActiveSessions (store : List SessionRow) (server : String) :
    List SessionRow :=
  store.filter (fun r => decide (r.disconnected_at = none ∧ r.server_name = server))

/-- `disconnected_sessions_data`: active DB rows whose key is absent from the
current snapshot. -/
def disconnectedData (store : List SessionRow) (server : String)
    (sessions : List VPNSession) : List SessionRow :=
  (dbActiveSessions store server).filter
    (fun r => ! decide (rowCollectKey r ∈ sessions.map collectKey))

/-- The `VPNSession` built from a DB row when marking it disconnected
(`disconnected_at = datetime.now()`). -/
def closedSession (server : String) (now : Nat) (r : SessionRow) : VPNSession :=
  { username := r.username
    real_address := r.real_address
    real_address_port := r.real_address_port
    virtual_address := r.virtual_address
    bytes_received := r.bytes_received
    bytes_sent := r.bytes_sent
    connected_since := r.connected_since
    server_name := server
    disconnected_at := some now }

/-- One server's portion of `MultiServerStatsCollector.collect_stats`:
parse, diff against the active set, feed the traffic ledger, then persist the
active observations and close the disconnected rows. -/
def collect_server (store : List SessionRow) (h : List TrafficRow)
    (server : String) (contents : Option (List String))
    (pd : String → Option Nat) (now : Nat) :
    List SessionRow × List TrafficRow :=
  let sessions := parse_status_file contents server pd now
  let disconnected := disconnectedData store server sessions
  let h2 :=
    if sessions ≠ [] ∨ disconnected ≠ [] then
      save_traffic_snapshot h server sessions disconnected now
    else h
  if sessions = [] then
    (disconnected.foldl (fun st r => save_session st (closedSession server now r)) store, h2)
  else
    let store1 := sessions.foldl (fun st s => save_session st s) store
    (disconnected.foldl (fun st r => save_session st (closedSession server now r)) store1, h2)

/-! ### Chart aggregator (`get_traffic_history`, `get_user_traffic_history`)

The SQL `strftime` time-slot truncation is abstracted as a function
`slot : Nat → Nat`; rows are read in insertion order, which for histories
produced by the collector coincides with `ORDER BY timestamp`. -/

/-- Rows feeding the per-server chart: aggregated rows (`username IS NULL`)
of this server inside the window (`timestamp > since`). -/
def serverChartRows (h : List TrafficRow) (server : String) (since : Nat) :
    List TrafficRow :=
  h.filter (fun r =>
    decide (since < r.timestamp ∧ r.server_name = server ∧ r.username = none))

/-- The per-server aggregated series of `get_traffic_history` at one time
bucket, in bytes: `SUM(bytes_in), SUM(bytes_out) ... GROUP BY time_slot`. -/
def serverSeries (h : List TrafficRow) (server : String) (since : Nat)
    (slot : Nat → Nat) (b : Nat) : Int × Int :=
  (((serverChartRows h server since).filter
      (fun r => decide (slot r.timestamp = b))).map
    (fun r => (r.bytes_in, r.bytes_out))).sum

/-- Optional server filter of `get_user_traffic_history`. -/
def serverFilterOk (server : Option String) (r : TrafficRow) : Bool :=
  match server with
  | some sv => decide (r.server_name = sv)
  | none => true

/-- Optional session-key filter of `get_user_traffic_history`. -/
def keyFilterOk (skey : Option String) (r : TrafficRow) : Bool :=
  match skey with
  | some k => decide (r.session_key = some k)
  | none => true

/-- The raw rows read for one username by `get_user_traffic_history`. -/
def userChartRows (h : List TrafficRow) (user : String)
    (server skey : Option String) (since : Nat) : List TrafficRow :=
  h.filter (fun r =>
    decide (since < r.timestamp ∧ r.username = some user ∧ r.session_key ≠ none)
    && serverFilterOk server r && keyFilterOk skey r)

/-- The session keys appearing in a row list, in first-appearance order
(the keys of the `session_data` dictionary). -/
def sessionKeysOfRows (rows : List TrafficRow) : List String :=
  ((rows.map (fun r => (r.session_key).getD emptyStr))).dedup

/-- The delta walk of `get_user_traffic_history` after the first data point:
delta from the previous cumulative value, or the full current value on an
apparent decrease. -/
def deltaWalkFrom : Int → Int → List TrafficRow → List (Nat × (Int × Int))
  | _, _, [] => []
  | pin, pout, r :: rest =>
    (r.timestamp,
      ((if pin ≤ r.bytes_in then r.bytes_in - pin else r.bytes_in),
       (if pout ≤ r.bytes_out then r.bytes_out - pout else r.bytes_out)))
    :: deltaWalkFrom r.bytes_in r.bytes_out rest

/-- The full delta sequence of one session's data points: the first point
counts in full (`i == 0` case), later points use `deltaWalkFrom`. -/
def deltaSeq : List TrafficRow → List (Nat × (Int × Int))
  | [] => []
  | r :: rest =>
    (r.timestamp, (r.bytes_in, r.bytes_out)) :: deltaWalkFrom r.bytes_in r.bytes_out rest

/-- Delta contribution of one session's data points to one time bucket. -/
def keyBucketDelta (rows : List TrafficRow) (slot : Nat → Nat) (b : Nat) :
    Int × Int :=
  (((deltaSeq rows).filter (fun p => decide (slot p.1 = b))).map
    (fun p => p.2)).sum

/-- The per-identity delta series of `get_user_traffic_history` at one time
bucket, in bytes: recompute deltas per session key, then accumulate into
`time_slot_deltas`. -/
def userSeries (h : List TrafficRow) (user : String) (server skey : Option String)
    (since : Nat) (slot : Nat → Nat) (b : Nat) : Int × Int :=
  let rows := userChartRows h user server skey since
  ((sessionKeysOfRows rows).map (fun k =>
    keyBucketDelta (rows.filter (fun r => decide (r.session_key = some k))) slot b)).sum

/-- Sum of the per-identity series over a list of identities. -/
def usersSeries (h : List TrafficRow) (users : List String)
    (server : Option String) (since : Nat) (slot : Nat → Nat) (b : Nat) :
    Int × Int :=
  (users.map (fun u => userSeries h u server none since slot b)).sum

/-- All usernames appearing in a list of observations, deduplicated. -/
def usernamesOf (sessions : List VPNSession) : List String :=
  (sessions.map (fun s => s.username)).dedup

/-! ### Derived notions used to state the properties -/

/-- Number of active rows for one unique key: the quantity bounded by the
partial unique index `idx_unique_active_session_v2`. -/
def keyActiveCount (store : List SessionRow)
    (κ : String × String × String × String) : Nat :=
  store.countP (fun r => decide (rowKey r = κ ∧ r.disconnected_at = none))

/-- The session-store invariant: at most one active row per unique key. -/
def UniqueActive (store : List SessionRow) : Prop :=
  ∀ κ, keyActiveCount store κ ≤ 1

/-- String session key built from a reconciler key triple
(username, real_address, real_address_port). -/
def joinKey (k : String × String × String) : String :=
  k.1 ++ colonStr ++ k.2.1 ++ colonStr ++ k.2.2

/-- The share of one string session key in the totals accumulated by
`save_traffic_snapshot`. -/
def keyContribution (h : List TrafficRow) (server : String)
    (sessions : List VPNSession) (disconnected : List SessionRow)
    (k : String) : Int × Int :=
  ((sessions.filter (fun s => decide (sessionKeyOf s = k))).map (fun s =>
    activeDelta (prevTraffic h server (sessionKeyOf s))
      s.bytes_received s.bytes_sent)).sum
  + ((disconnected.filter (fun r => decide (rowSessionKey r = k))).map (fun r =>
    discDelta (prevTraffic h server (rowSessionKey r))
      r.bytes_received r.bytes_sent)).sum

/-- The last (dict-overwrite) cumulative counter pair recorded for a key in a
list of observations. -/
def valueIn (obs : List VPNSession) (k : String) : Option (Int × Int) :=
  ((obs.filter (fun s => decide (sessionKeyOf s = k))).getLast?).map
    (fun s => (s.bytes_received, s.bytes_sent))

/-- A sequence of collection cycles for one server, each a timestamp plus the
parsed snapshot, all fed through `save_traffic_snapshot` with an empty
disconnected set. -/
def runCycles (server : String) :
    List TrafficRow → List (Nat × List VPNSession) → List TrafficRow
  | h, [] => h
  | h, c :: rest => runCycles server (save_traffic_snapshot h server c.2 [] c.1) rest

/-- Well-formed cycle sequences: each snapshot has pairwise distinct session
keys, and a key that was seen before and reappears must have been present in
the most recent nonempty snapshot (no gap-and-reappear churn). The first
argument is the most recent nonempty snapshot so far, the second the keys seen
so far. -/
def GoodCycles : List VPNSession → List String → List (Nat × List VPNSession) → Prop
  | _, _, [] => True
  | prevObs, seen, c :: rest =>
    (c.2.map sessionKeyOf).Nodup ∧
    (∀ s ∈ c.2, sessionKeyOf s ∈ seen → sessionKeyOf s ∈ prevObs.map sessionKeyOf) ∧
    GoodCycles (if c.2 = [] then prevObs else c.2) (seen ++ c.2.map sessionKeyOf) rest

/-- Reference per-cycle total: the sum of active-session deltas computed from
an explicit previous-sample map. -/
def refCycleTotal (p : String → Option (Int × Int)) (obs : List VPNSession) :
    Int × Int :=
  (obs.map (fun s =>
    activeDelta (p (sessionKeyOf s)) s.bytes_received s.bytes_sent)).sum

/-- How the previous-sample map evolves over one cycle: unchanged for an empty
snapshot, otherwise replaced by the snapshot's own values. -/
def updatePrev (p : String → Option (Int × Int)) (obs : List VPNSession) :
    String → Option (Int × Int) :=
  if obs = [] then p else fun k => valueIn obs k

/-- Reference bucketed delta series over a cycle sequence. -/
def refSeries (slot : Nat → Nat) (b : Nat) :
    (String → Option (Int × Int)) → List (Nat × List VPNSession) → Int × Int
  | _, [] => 0
  | p, c :: rest =>
    (if slot c.1 = b then refCycleTotal p c.2 else 0)
    + refSeries slot b (updatePrev p c.2) rest

/-- The delta sequence of one session's data points, starting from an optional
carried previous sample (`none` = the cold-start first point counts in full). -/
def deltaSeqFrom : Option (Int × Int) → List TrafficRow → List (Nat × (Int × Int))
  | none, rows => deltaSeq rows
  | some v, rows => deltaWalkFrom v.1 v.2 rows

/-- Bucketed sum of `deltaSeqFrom`. -/
def keyBucketDeltaFrom (prev : Option (Int × Int)) (rows : List TrafficRow)
    (slot : Nat → Nat) (b : Nat) : Int × Int :=
  (((deltaSeqFrom prev rows).filter (fun p => decide (slot p.1 = b))).map
    (fun p => p.2)).sum

/-- The raw sample rows a cycle sequence writes for one session key, in
order. -/
def rowsOfKey (server : String) (k : String)
    (cycles : List (Nat × List VPNSession)) : List TrafficRow :=
  (cycles.map (fun c =>
    (c.2.filter (fun s => decide (sessionKeyOf s = k))).map (rawRowOf server c.1))).flatten

/-- All observations of a cycle sequence, in order. -/
def allObs (cycles : List (Nat × List VPNSession)) : List VPNSession :=
  (cycles.map (fun c => c.2)).flatten

/-- Distinct session keys of a cycle sequence. -/
def allKeys (cycles : List (Nat × List VPNSession)) : List String :=
  ((allObs cycles).map sessionKeyOf).dedup

/-- Equal session keys come from the same username (holds whenever usernames
and addresses are colon-free, since the key is their colon join). -/
def KeyUserConsistent (cycles : List (Nat × List VPNSession)) : Prop :=
  ∀ s ∈ allObs cycles, ∀ s2 ∈ allObs cycles,
    sessionKeyOf s = sessionKeyOf s2 → s.username = s2.username

/-! ### Concrete fixtures used by witnesses and counterexamples -/

/-- Observation constructor for concrete test inputs. -/
def obsOf (u sv addr port : String) (bin bout : Int) : VPNSession :=
  { username := u
    real_address := addr
    real_address_port := port
    virtual_address := none
    bytes_received := bin
    bytes_sent := bout
    connected_since := 0
    server_name := sv
    disconnected_at := none }

/-- An active stored session row for concrete test inputs. -/
def rowOf (u sv addr port : String) (bin bout : Int) (cs : Nat) : SessionRow :=
  { username := u
    server_name := sv
    real_address := addr
    real_address_port := port
    virtual_address := none
    bytes_received := bin
    bytes_sent := bout
    connected_since := cs
    disconnected_at := none
    session_duration := none }

/-! ## Helper lemmas -/

theorem totalDeltas_single (h : List TrafficRow) (server : String) (s : VPNSession) :
    totalDeltas h server [s] [] =
      activeDelta (prevTraffic h server (sessionKeyOf s))
        s.bytes_received s.bytes_sent := by
  simp [totalDeltas]

theorem totalDeltas_single_disc (h : List TrafficRow) (server : String)
    (d : SessionRow) :
    totalDeltas h server [] [d] =
      discDelta (prevTraffic h server (rowSessionKey d))
        d.bytes_received d.bytes_sent := by
  simp [totalDeltas]

/-! ## C7: cold start counts the full cumulative counters -/

/-- C7: a session key with no prior raw sample contributes its full cumulative
counters as delta, in both directions, and no anomaly is logged; the resulting
aggregated row is written by `save_traffic_snapshot`. -/
theorem cold_start_full_delta (h : List TrafficRow) (server : String)
    (s : VPNSession) (now : Nat)
    (hprev : prevTraffic h server (sessionKeyOf s) = none) :
    (aggRowOf h server [s] [] now).bytes_in = s.bytes_received ∧
    (aggRowOf h server [s] [] now).bytes_out = s.bytes_sent ∧
    snapshotAnomalies h server [s] = [] ∧
    aggRowOf h server [s] [] now ∈ save_traffic_snapshot h server [s] [] now := by
  refine ⟨?_, ?_, ?_, ?_⟩
  · simp [aggRowOf, totalDeltas, activeDelta, hprev]
  · simp [aggRowOf, totalDeltas, activeDelta, hprev]
  · simp [snapshotAnomalies, activeAnomalies, hprev]
  · simp [save_traffic_snapshot]

/-- Witness for C7 at the spec's concrete numbers: no prior sample and current
(5000, 3000) yields delta (5000, 3000). -/
theorem cold_start_full_delta_witness :
    prevTraffic [] ("s1") (sessionKeyOf (obsOf ("alice") ("s1") ("10.0.0.5") ("4444") 5000 3000)) = none ∧
    (aggRowOf [] ("s1") [obsOf ("alice") ("s1") ("10.0.0.5") ("4444") 5000 3000] [] 1).bytes_in = 5000 ∧
    (aggRowOf [] ("s1") [obsOf ("alice") ("s1") ("10.0.0.5") ("4444") 5000 3000] [] 1).bytes_out = 3000 := by
  have h := cold_start_full_delta [] ("s1")
    (obsOf ("alice") ("s1") ("10.0.0.5") ("4444") 5000 3000) 1 rfl
  exact ⟨rfl, h.1, h.2.1⟩

/-! ## C2: counter reset counts the full current value and logs an anomaly -/

/-- C2: with a prior raw sample (p, q), a current counter below the prior one
in either direction yields a delta equal to the full current value for that
direction together with a logged anomaly, while a direction at or above its
prior yields the difference; the aggregated row is written by
`save_traffic_snapshot`. -/
theorem counter_reset_full_delta (h : List TrafficRow) (server : String)
    (s : VPNSession) (p q : Int) (now : Nat)
    (hprev : prevTraffic h server (sessionKeyOf s) = some (p, q)) :
    ((s.bytes_received < p →
      (aggRowOf h server [s] [] now).bytes_in = s.bytes_received ∧
      Anomaly.mk server s.username true p s.bytes_received ∈
        snapshotAnomalies h server [s]) ∧
     (p ≤ s.bytes_received →
      (aggRowOf h server [s] [] now).bytes_in = s.bytes_received - p)) ∧
    ((s.bytes_sent < q →
      (aggRowOf h server [s] [] now).bytes_out = s.bytes_sent ∧
      Anomaly.mk server s.username false q s.bytes_sent ∈
        snapshotAnomalies h server [s]) ∧
     (q ≤ s.bytes_sent →
      (aggRowOf h server [s] [] now).bytes_out = s.bytes_sent - q)) ∧
    aggRowOf h server [s] [] now ∈ save_traffic_snapshot h server [s] [] now := by
  refine ⟨⟨?_, ?_⟩, ⟨?_, ?_⟩, ?_⟩
  · intro hin
    constructor
    · simp [aggRowOf, totalDeltas, activeDelta, hprev, not_le.mpr hin]
    · simp [snapshotAnomalies, activeAnomalies, hprev, hin]
  · intro hin
    simp [aggRowOf, totalDeltas, activeDelta, hprev, hin]
  · intro hout
    constructor
    · simp [aggRowOf, totalDeltas, activeDelta, hprev, not_le.mpr hout]
    · simp [snapshotAnomalies, activeAnomalies, hprev, hout]
  · intro hout
    simp [aggRowOf, totalDeltas, activeDelta, hprev, hout]
  · simp [save_traffic_snapshot]

/-- Witness for C2 at the spec's concrete numbers: prior (1000, 500), current
(200, 900) yields delta (200, 400) and a logged IN anomaly. -/
theorem counter_reset_full_delta_witness :
    prevTraffic [rawRowOf ("s1") 1 (obsOf ("alice") ("s1") ("10.0.0.5") ("4444") 1000 500)]
        ("s1") (sessionKeyOf (obsOf ("alice") ("s1") ("10.0.0.5") ("4444") 200 900)) = some (1000, 500) ∧
    (aggRowOf [rawRowOf ("s1") 1 (obsOf ("alice") ("s1") ("10.0.0.5") ("4444") 1000 500)]
        ("s1") [obsOf ("alice") ("s1") ("10.0.0.5") ("4444") 200 900] [] 2).bytes_in = 200 ∧
    (aggRowOf [rawRowOf ("s1") 1 (obsOf ("alice") ("s1") ("10.0.0.5") ("4444") 1000 500)]
        ("s1") [obsOf ("alice") ("s1") ("10.0.0.5") ("4444") 200 900] [] 2).bytes_out = 400 ∧
    Anomaly.mk ("s1") ("alice") true 1000 200 ∈
      snapshotAnomalies [rawRowOf ("s1") 1 (obsOf ("alice") ("s1") ("10.0.0.5") ("4444") 1000 500)]
        ("s1") [obsOf ("alice") ("s1") ("10.0.0.5") ("4444") 200 900] := by
  have h := counter_reset_full_delta
    [rawRowOf ("s1") 1 (obsOf ("alice") ("s1") ("10.0.0.5") ("4444") 1000 500)] ("s1")
    (obsOf ("alice") ("s1") ("10.0.0.5") ("4444") 200 900) 1000 500 2
    (by decide)
  exact ⟨by decide, (h.1.1 (by decide)).1, h.2.1.2 (by decide), (h.1.1 (by decide)).2⟩

/-! ## C9: the prior-sample lookup sees only the single most recent timestamp -/

/-- C9: the previous-sample lookup considers only raw samples written at the
most recent raw-sample timestamp of the server; a key that has an older raw
sample but none at that timestamp is treated as having no prior sample, so its
full cumulative counters are counted again as delta. -/
theorem prev_lookup_latest_only (h : List TrafficRow) (server k : String)
    (t : Nat) (r0 : TrafficRow) (s : VPNSession) (now : Nat)
    (hmax : lastRawTimestamp h server = some t)
    (hr0 : r0 ∈ h) (hr0s : r0.server_name = server) (hr0k : r0.session_key = some k)
    (hnone : ∀ r ∈ h, r.server_name = server → r.session_key = some k → r.timestamp ≠ t)
    (hks : sessionKeyOf s = k) :
    prevTraffic h server k = none ∧
    (aggRowOf h server [s] [] now).bytes_in = s.bytes_received ∧
    (aggRowOf h server [s] [] now).bytes_out = s.bytes_sent := by
  have hfil : h.filter (fun r =>
      decide (r.server_name = server ∧ r.session_key = some k ∧ r.timestamp = t)) = [] := by
    refine List.filter_eq_nil_iff.mpr ?_
    intro r hr
    simp only [decide_eq_true_eq, not_and]
    intro h1 h2
    exact hnone r hr h1 h2
  have hred : prevTraffic h server k =
      ((h.filter (fun r =>
        decide (r.server_name = server ∧ r.session_key = some k ∧ r.timestamp = t))).getLast?).map
          (fun r => (r.bytes_in, r.bytes_out)) := by
    unfold prevTraffic
    rw [hmax]
  have hpt : prevTraffic h server k = none := by
    rw [hred, hfil]
    rfl
  have hps : prevTraffic h server (sessionKeyOf s) = none := by rw [hks]; exact hpt
  refine ⟨hpt, ?_, ?_⟩
  · simp [aggRowOf, totalDeltas, activeDelta, hps]
  · simp [aggRowOf, totalDeltas, activeDelta, hps]

/-- Witness for C9: alice has a raw sample at t = 1 but none at the latest
raw-sample timestamp t = 2 (only bob was sampled then); on reappearance with
(150, 80) her full counters count again. -/
theorem prev_lookup_latest_only_witness :
    prevTraffic
      [rawRowOf ("s1") 1 (obsOf ("alice") ("s1") ("10.0.0.5") ("4444") 100 50),
       rawRowOf ("s1") 2 (obsOf ("bob") ("s1") ("10.0.0.6") ("5555") 10 10)]
      ("s1") (sessionKeyOf (obsOf ("alice") ("s1") ("10.0.0.5") ("4444") 150 80)) = none ∧
    (aggRowOf
      [rawRowOf ("s1") 1 (obsOf ("alice") ("s1") ("10.0.0.5") ("4444") 100 50),
       rawRowOf ("s1") 2 (obsOf ("bob") ("s1") ("10.0.0.6") ("5555") 10 10)]
      ("s1") [obsOf ("alice") ("s1") ("10.0.0.5") ("4444") 150 80] [] 3).bytes_in = 150 ∧
    (aggRowOf
      [rawRowOf ("s1") 1 (obsOf ("alice") ("s1") ("10.0.0.5") ("4444") 100 50),
       rawRowOf ("s1") 2 (obsOf ("bob") ("s1") ("10.0.0.6") ("5555") 10 10)]
      ("s1") [obsOf ("alice") ("s1") ("10.0.0.5") ("4444") 150 80] [] 3).bytes_out = 80 := by
  have h := prev_lookup_latest_only
    [rawRowOf ("s1") 1 (obsOf ("alice") ("s1") ("10.0.0.5") ("4444") 100 50),
     rawRowOf ("s1") 2 (obsOf ("bob") ("s1") ("10.0.0.6") ("5555") 10 10)]
    ("s1") (sessionKeyOf (obsOf ("alice") ("s1") ("10.0.0.5") ("4444") 150 80)) 2
    (rawRowOf ("s1") 1 (obsOf ("alice") ("s1") ("10.0.0.5") ("4444") 100 50))
    (obsOf ("alice") ("s1") ("10.0.0.5") ("4444") 150 80) 3
    (by decide) (by decide) (by decide) (by decide) (by decide) rfl
  exact h

/-! ## C8: retention sweep removes old closed sessions, keeps active ones -/

/-- C8: after `cleanup_old_data`, every closed session row whose disconnect
timestamp is older than the session-retention cutoff is gone, and every active
row (null disconnect timestamp) is still present, regardless of age. -/
theorem retention_sweep (store : List SessionRow) (h : List TrafficRow)
    (sc tc : Nat) :
    (∀ r ∈ store, ∀ d : Nat, r.disconnected_at = some d → d < sc →
      r ∉ (cleanup_old_data store h sc tc).1) ∧
    (∀ r ∈ store, r.disconnected_at = none →
      r ∈ (cleanup_old_data store h sc tc).1) := by
  constructor
  · intro r hr d hd hlt hmem
    have hkeep := (List.mem_filter.mp hmem).2
    simp [sessionExpired, hd, hlt] at hkeep
  · intro r hr hnone
    exact List.mem_filter.mpr ⟨hr, by simp [sessionExpired, hnone]⟩

/-- Witness for C8: with cutoff 100, a session closed at 5 is swept while an
ancient session still active (connected since 0) is kept. -/
theorem retention_sweep_witness :
    ({ rowOf ("bob") ("s1") ("10.0.0.6") ("5555") 1 1 0 with
        disconnected_at := some 5 } ∉
      (cleanup_old_data
        [{ rowOf ("bob") ("s1") ("10.0.0.6") ("5555") 1 1 0 with disconnected_at := some 5 },
         rowOf ("alice") ("s1") ("10.0.0.5") ("4444") 2 2 0]
        [] 100 100).1) ∧
    (rowOf ("alice") ("s1") ("10.0.0.5") ("4444") 2 2 0 ∈
      (cleanup_old_data
        [{ rowOf ("bob") ("s1") ("10.0.0.6") ("5555") 1 1 0 with disconnected_at := some 5 },
         rowOf ("alice") ("s1") ("10.0.0.5") ("4444") 2 2 0]
        [] 100 100).1) := by
  have h := retention_sweep
    [{ rowOf ("bob") ("s1") ("10.0.0.6") ("5555") 1 1 0 with disconnected_at := some 5 },
     rowOf ("alice") ("s1") ("10.0.0.5") ("4444") 2 2 0]
    [] 100 100
  exact ⟨h.1 _ (by decide) 5 rfl (by decide), h.2 _ (by decide) rfl⟩

/-! ## C10: parser output counters are non-negative -/

theorem parseCounter_nonneg (s : String) : 0 ≤ parseCounter s := by
  unfold parseCounter
  split
  · exact Int.natCast_nonneg _
  · exact le_refl 0

theorem applyRouting_bytes_received (rt : List (String × String)) (s : VPNSession) :
    (applyRouting rt s).bytes_received = s.bytes_received := by
  unfold applyRouting
  split
  · cases routingLookup rt s.username <;> rfl
  · rfl

theorem applyRouting_bytes_sent (rt : List (String × String)) (s : VPNSession) :
    (applyRouting rt s).bytes_sent = s.bytes_sent := by
  unfold applyRouting
  split
  · cases routingLookup rt s.username <;> rfl
  · rfl

theorem parseLines_nonneg (server : String) (pd : String → Option Nat) (now : Nat) :
    ∀ lines : List String, ∀ s ∈ (parseLines server pd now lines).1,
      0 ≤ s.bytes_received ∧ 0 ≤ s.bytes_sent := by
  intro lines
  induction lines with
  | nil => intro s hs; simp [parseLines] at hs
  | cons l rest ih =>
    intro s hs
    simp only [parseLines] at hs
    split at hs
    · split at hs
      · rcases List.mem_cons.mp hs with h1 | h2
        · subst h1
          exact ⟨parseCounter_nonneg _, parseCounter_nonneg _⟩
        · exact ih s h2
      · exact ih s hs
    · split at hs
      · split at hs
        · exact ih s hs
        · exact ih s hs
      · exact ih s hs

/-- C10: every observation produced by the parser has non-negative byte
counters — any counter field that is not a pure digit string is replaced by
zero. -/
theorem parser_counters_nonneg (contents : Option (List String)) (server : String)
    (pd : String → Option Nat) (now : Nat) :
    ∀ s ∈ parse_status_file contents server pd now,
      0 ≤ s.bytes_received ∧ 0 ≤ s.bytes_sent := by
  intro s hs
  cases contents with
  | none => simp [parse_status_file] at hs
  | some lines =>
    simp only [parse_status_file] at hs
    rcases List.mem_map.mp hs with ⟨s0, hs0, rfl⟩
    have h0 := parseLines_nonneg server pd now lines s0 hs0
    rw [applyRouting_bytes_received, applyRouting_bytes_sent]
    exact h0

/-- Witness for C10: a CLIENT_LIST line with a negative and a non-numeric
counter parses to an observation with both counters zero, hence
non-negative. -/
theorem parser_counters_nonneg_witness :
    (obsOf ("mallory") ("s1") ("10.0.0.7") ("6666") 0 0) ∈
      parse_status_file
        (some [("CLIENT_LIST,mallory,10.0.0.7:6666,,x,-5,abc,bad,extra")])
        ("s1") (fun _ => none) 0 ∧
    0 ≤ (obsOf ("mallory") ("s1") ("10.0.0.7") ("6666") 0 0).bytes_received ∧
    0 ≤ (obsOf ("mallory") ("s1") ("10.0.0.7") ("6666") 0 0).bytes_sent := by
  have hm : (obsOf ("mallory") ("s1") ("10.0.0.7") ("6666") 0 0) ∈
      parse_status_file
        (some [("CLIENT_LIST,mallory,10.0.0.7:6666,,x,-5,abc,bad,extra")])
        ("s1") (fun _ => none) 0 := by decide
  have h := parser_counters_nonneg
    (some [("CLIENT_LIST,mallory,10.0.0.7:6666,,x,-5,abc,bad,extra")])
    ("s1") (fun _ => none) 0 _ hm
  exact ⟨hm, h⟩

/-! ## C1: at most one active row per unique key -/

@[simp]
theorem rowKey_insertSessionRow (s : VPNSession) :
    rowKey (insertSessionRow s) = obsKey s := rfl

@[simp]
theorem rowKey_updateSessionRow (r : SessionRow) (s : VPNSession) :
    rowKey (updateSessionRow r s) = rowKey r := rfl

@[simp]
theorem disconnected_insertSessionRow (s : VPNSession) :
    (insertSessionRow s).disconnected_at = s.disconnected_at := rfl

@[simp]
theorem disconnected_updateSessionRow (r : SessionRow) (s : VPNSession) :
    (updateSessionRow r s).disconnected_at = s.disconnected_at := rfl

theorem keyActiveCount_nil (κ : String × String × String × String) :
    keyActiveCount [] κ = 0 := rfl

theorem keyActiveCount_cons (r : SessionRow) (st : List SessionRow)
    (κ : String × String × String × String) :
    keyActiveCount (r :: st) κ =
      keyActiveCount st κ +
        (if rowKey r = κ ∧ r.disconnected_at = none then 1 else 0) := by
  simp [keyActiveCount, List.countP_cons]

theorem keyActiveCount_save_other (s : VPNSession)
    (κ : String × String × String × String) (hne : κ ≠ obsKey s) :
    ∀ st, keyActiveCount (save_session st s) κ = keyActiveCount st κ := by
  intro st
  induction st with
  | nil =>
    rw [show save_session [] s = [insertSessionRow s] from rfl,
      keyActiveCount_cons, keyActiveCount_nil]
    simp [Ne.symm hne]
  | cons r rest ih =>
    simp only [save_session]
    split
    case isTrue h =>
      rw [keyActiveCount_cons, keyActiveCount_cons]
      have hr : rowKey r ≠ κ := by rw [h.1]; exact Ne.symm hne
      simp [hr]
    case isFalse h =>
      rw [keyActiveCount_cons, keyActiveCount_cons, ih]

theorem keyActiveCount_save_self_active (s : VPNSession)
    (hact : s.disconnected_at = none) :
    ∀ st, keyActiveCount (save_session st s) (obsKey s) =
      max 1 (keyActiveCount st (obsKey s)) := by
  intro st
  induction st with
  | nil =>
    rw [show save_session [] s = [insertSessionRow s] from rfl,
      keyActiveCount_cons, keyActiveCount_nil]
    simp [hact]
  | cons r rest ih =>
    simp only [save_session]
    split
    case isTrue h =>
      rw [keyActiveCount_cons, keyActiveCount_cons]
      simp only [rowKey_updateSessionRow, disconnected_updateSessionRow]
      rw [if_pos ⟨h.1, hact⟩, if_pos h]
      omega
    case isFalse h =>
      rw [keyActiveCount_cons, keyActiveCount_cons, ih]
      simp only [if_neg h]
      omega

theorem keyActiveCount_save_self_closed (s : VPNSession) (n : Nat)
    (hd : s.disconnected_at = some n) :
    ∀ st, keyActiveCount (save_session st s) (obsKey s) =
      keyActiveCount st (obsKey s) - 1 := by
  intro st
  induction st with
  | nil =>
    rw [show save_session [] s = [insertSessionRow s] from rfl,
      keyActiveCount_cons, keyActiveCount_nil]
    simp [hd]
  | cons r rest ih =>
    simp only [save_session]
    split
    case isTrue h =>
      rw [keyActiveCount_cons, keyActiveCount_cons]
      simp only [rowKey_updateSessionRow, disconnected_updateSessionRow]
      rw [if_pos h]
      simp [hd]
    case isFalse h =>
      rw [keyActiveCount_cons, keyActiveCount_cons, ih]
      simp only [if_neg h]
      omega

theorem save_session_preserves_unique (st : List SessionRow) (s : VPNSession)
    (hinv : UniqueActive st) : UniqueActive (save_session st s) := by
  intro κ
  by_cases hκ : κ = obsKey s
  · subst hκ
    cases hd : s.disconnected_at with
    | none =>
      rw [keyActiveCount_save_self_active s hd st]
      have := hinv (obsKey s)
      omega
    | some n =>
      rw [keyActiveCount_save_self_closed s n hd st]
      have := hinv (obsKey s)
      omega
  · rw [keyActiveCount_save_other s κ hκ st]
    exact hinv κ

theorem foldl_save_preserves_unique (l : List VPNSession) :
    ∀ st, UniqueActive st →
      UniqueActive (l.foldl (fun acc s2 => save_session acc s2) st) := by
  induction l with
  | nil => intro st hst; exact hst
  | cons a rest ih =>
    intro st hst
    exact ih (save_session st a) (save_session_preserves_unique st a hst)

theorem cleanup_preserves_unique (store : List SessionRow) (h : List TrafficRow)
    (sc tc : Nat) (hinv : UniqueActive store) :
    UniqueActive (cleanup_old_data store h sc tc).1 := by
  intro κ
  refine le_trans ?_ (hinv κ)
  exact List.Sublist.countP_le _ (List.filter_sublist store)

theorem collect_preserves_unique (store : List SessionRow) (h : List TrafficRow)
    (server : String) (contents : Option (List String))
    (pd : String → Option Nat) (now : Nat) (hinv : UniqueActive store) :
    UniqueActive (collect_server store h server contents pd now).1 := by
  simp only [collect_server]
  have hfold2 : ∀ (ds : List SessionRow) (st : List SessionRow), UniqueActive st →
      UniqueActive (ds.foldl (fun acc r => save_session acc (closedSession server now r)) st) := by
    intro ds
    induction ds with
    | nil => intro st hst; exact hst
    | cons a rest ih =>
      intro st hst
      exact ih (save_session st (closedSession server now a))
        (save_session_preserves_unique st (closedSession server now a) hst)
  split
  · exact hfold2 _ store hinv
  · exact hfold2 _ _ (foldl_save_preserves_unique _ store hinv)

/-- C1: at most one active `SessionRow` per (username, server, origin address,
origin port) key, and every writer of the session store — the upsert
`save_session` (both for active observations and for closing disconnected
sessions), a full reconciliation cycle, and the retention sweeper — preserves
this. -/
theorem unique_active_preserved (store : List SessionRow) (s : VPNSession)
    (h : List TrafficRow) (server : String) (contents : Option (List String))
    (pd : String → Option Nat) (now sc tc : Nat)
    (hinv : UniqueActive store) :
    UniqueActive (save_session store s) ∧
    UniqueActive (collect_server store h server contents pd now).1 ∧
    UniqueActive (cleanup_old_data store h sc tc).1 := by
  exact ⟨save_session_preserves_unique store s hinv,
    collect_preserves_unique store h server contents pd now hinv,
    cleanup_preserves_unique store h sc tc hinv⟩

/-- Witness for C1: a concrete store holding one active alice row, upserted
with a bob observation, run through a cycle, and swept. -/
theorem unique_active_preserved_witness :
    UniqueActive (save_session [rowOf ("alice") ("s1") ("10.0.0.5") ("4444") 1 1 0]
      (obsOf ("bob") ("s1") ("10.0.0.6") ("5555") 2 2)) ∧
    UniqueActive (collect_server [rowOf ("alice") ("s1") ("10.0.0.5") ("4444") 1 1 0]
      [] ("s1") none (fun _ => none) 7).1 ∧
    UniqueActive (cleanup_old_data [rowOf ("alice") ("s1") ("10.0.0.5") ("4444") 1 1 0]
      [] 100 100).1 := by
  exact unique_active_preserved [rowOf ("alice") ("s1") ("10.0.0.5") ("4444") 1 1 0]
    (obsOf ("bob") ("s1") ("10.0.0.6") ("5555") 2 2) [] ("s1") none (fun _ => none) 7 100 100
    (fun κ => List.countP_le_length _)

/-! ## The previous-sample lookup across one snapshot write -/

theorem listMax_eq_none_iff (l : List Nat) : listMax l = none ↔ l = [] := by
  cases l with
  | nil => simp [listMax]
  | cons t ts =>
    simp only [listMax]
    cases listMax ts <;> simp

theorem listMax_spec : ∀ (l : List Nat) (m : Nat), listMax l = some m →
    m ∈ l ∧ ∀ x ∈ l, x ≤ m := by
  intro l
  induction l with
  | nil => intro m hm; simp [listMax] at hm
  | cons t ts ih =>
    intro m hm
    simp only [listMax] at hm
    cases hts : listMax ts with
    | none =>
      rw [hts] at hm
      have : ts = [] := (listMax_eq_none_iff ts).mp hts
      subst this
      simp at hm
      subst hm
      simp
    | some m2 =>
      rw [hts] at hm
      simp at hm
      obtain ⟨hmem2, hub2⟩ := ih m2 hts
      subst hm
      constructor
      · rcases Nat.le_total t m2 with hle | hle
        · rw [Nat.max_eq_right hle]
          exact List.mem_cons_of_mem t hmem2
        · rw [Nat.max_eq_left hle]
          exact List.mem_cons_self t ts
      · intro x hx
        rcases List.mem_cons.mp hx with rfl | hx2
        · exact Nat.le_max_left _ _
        · exact le_trans (hub2 x hx2) (Nat.le_max_right _ _)

theorem listMax_eq_of_mem_ub : ∀ (l : List Nat) (t : Nat), t ∈ l →
    (∀ x ∈ l, x ≤ t) → listMax l = some t := by
  intro l
  induction l with
  | nil => intro t ht; simp at ht
  | cons a ts ih =>
    intro t ht hub
    simp only [listMax]
    cases hts : listMax ts with
    | none =>
      have : ts = [] := (listMax_eq_none_iff ts).mp hts
      subst this
      simp at ht
      subst ht
      rfl
    | some m =>
      obtain ⟨hmem, hub2⟩ := listMax_spec ts m hts
      have hmt : m ≤ t := hub m (List.mem_cons_of_mem a hmem)
      have hat : a ≤ t := hub a (List.mem_cons_self a ts)
      rcases List.mem_cons.mp ht with rfl | ht2
      · simp [Nat.max_eq_left hmt]
      · have htm : t ≤ m := hub2 t ht2
        have : m = t := le_antisymm hmt htm
        subst this
        simp [Nat.max_eq_right hat]

@[simp]
theorem isRawFor_rawRowOf (server : String) (t : Nat) (s : VPNSession) :
    isRawFor server (rawRowOf server t s) = true := by
  simp [isRawFor, rawRowOf]

@[simp]
theorem isRawFor_aggRowOf (server : String) (h : List TrafficRow)
    (obs : List VPNSession) (disc : List SessionRow) (t : Nat) :
    isRawFor server (aggRowOf h server obs disc t) = false := by
  simp [isRawFor, aggRowOf]

/-- How the previous-sample map reads after one `save_traffic_snapshot` whose
timestamp is fresh: an empty snapshot leaves it unchanged, a nonempty one
replaces it wholesale with the snapshot's own values. -/
theorem prevTraffic_snapshot (h : List TrafficRow) (server : String)
    (obs : List VPNSession) (disc : List SessionRow) (t : Nat) (k : String)
    (hlt : ∀ r ∈ h, isRawFor server r = true → r.timestamp < t) :
    prevTraffic (save_traffic_snapshot h server obs disc t) server k =
      if obs = [] then prevTraffic h server k else valueIn obs k := by
  have hraw : (save_traffic_snapshot h server obs disc t).filter (isRawFor server) =
      h.filter (isRawFor server) ++ obs.map (rawRowOf server t) := by
    unfold save_traffic_snapshot
    rw [List.filter_append, List.filter_append]
    simp [List.filter_map, Function.comp_def]
  by_cases hobs : obs = []
  · subst hobs
    rw [if_pos rfl]
    unfold prevTraffic
    rw [show lastRawTimestamp (save_traffic_snapshot h server [] disc t) server =
        lastRawTimestamp h server by
      unfold lastRawTimestamp
      rw [hraw]
      simp]
    cases lastRawTimestamp h server with
    | none => rfl
    | some t0 =>
      have hfe : (save_traffic_snapshot h server [] disc t).filter (fun r =>
          decide (r.server_name = server ∧ r.session_key = some k ∧ r.timestamp = t0)) =
          h.filter (fun r =>
          decide (r.server_name = server ∧ r.session_key = some k ∧ r.timestamp = t0)) := by
        unfold save_traffic_snapshot
        rw [List.filter_append, List.filter_append]
        simp [aggRowOf]
      simp only [hfe]
  · rw [if_neg hobs]
    have hmax : lastRawTimestamp (save_traffic_snapshot h server obs disc t) server = some t := by
      unfold lastRawTimestamp
      rw [hraw]
      apply listMax_eq_of_mem_ub
      · rcases obs with _ | ⟨s0, obs2⟩
        · exact absurd rfl hobs
        · simp [rawRowOf]
      · intro x hx
        rw [List.map_append] at hx
        rcases List.mem_append.mp hx with hx1 | hx2
        · rcases List.mem_map.mp hx1 with ⟨r, hr, rfl⟩
          exact le_of_lt (hlt r (List.mem_filter.mp hr).1 (List.mem_filter.mp hr).2)
        · rcases List.mem_map.mp hx2 with ⟨r, hr, rfl⟩
          rcases List.mem_map.mp hr with ⟨s2, hs2, rfl⟩
          simp [rawRowOf]
    unfold prevTraffic
    rw [hmax]
    have hfe : (save_traffic_snapshot h server obs disc t).filter (fun r =>
        decide (r.server_name = server ∧ r.session_key = some k ∧ r.timestamp = t)) =
        (obs.filter (fun s => decide (sessionKeyOf s = k))).map (rawRowOf server t) := by
      unfold save_traffic_snapshot
      rw [List.filter_append, List.filter_append]
      have h1 : h.filter (fun r =>
          decide (r.server_name = server ∧ r.session_key = some k ∧ r.timestamp = t)) = [] := by
        refine List.filter_eq_nil_iff.mpr ?_
        intro r hr
        simp only [decide_eq_true_eq, not_and]
        intro hsv hsk ht2
        have hlt2 := hlt r hr (by simp [isRawFor, hsv, hsk])
        omega
      have h2 : (obs.map (rawRowOf server t)).filter (fun r =>
          decide (r.server_name = server ∧ r.session_key = some k ∧ r.timestamp = t)) =
          (obs.filter (fun s => decide (sessionKeyOf s = k))).map (rawRowOf server t) := by
        rw [List.filter_map]
        congr 1
        apply List.filter_congr
        intro s hs
        simp [rawRowOf, Function.comp_def]
      have h3 : ([aggRowOf h server obs disc t]).filter (fun r =>
          decide (r.server_name = server ∧ r.session_key = some k ∧ r.timestamp = t)) = [] := by
        simp [aggRowOf]
      rw [h1, h2, h3]
      simp
    simp only [hfe, List.getLast?_map]
    unfold valueIn
    cases (obs.filter (fun s => decide (sessionKeyOf s = k))).getLast? <;> rfl

/-- The unique element of a key-deduplicated observation list carrying a given
key. -/
theorem filter_key_singleton : ∀ (l : List VPNSession),
    (l.map sessionKeyOf).Nodup → ∀ s ∈ l,
      l.filter (fun x => decide (sessionKeyOf x = sessionKeyOf s)) = [s] := by
  intro l
  induction l with
  | nil => intro _ s hs; simp at hs
  | cons a rest ih =>
    intro hnd s hs
    have hnd2 : (∀ x ∈ rest, sessionKeyOf x ≠ sessionKeyOf a) ∧
        (rest.map sessionKeyOf).Nodup := by simpa using hnd
    rcases List.mem_cons.mp hs with rfl | hs2
    · rw [List.filter_cons_of_pos (by simp)]
      have : rest.filter (fun x => decide (sessionKeyOf x = sessionKeyOf s)) = [] := by
        refine List.filter_eq_nil_iff.mpr ?_
        intro x hx
        simp only [decide_eq_true_eq]
        intro hk
        exact hnd2.1 x hx hk
      rw [this]
    · have hka : ¬ (sessionKeyOf a = sessionKeyOf s) := by
        intro hk
        exact hnd2.1 s hs2 hk.symm
      rw [List.filter_cons_of_neg (by simpa using hka)]
      exact ih hnd2.2 s hs2

/-! ## C6: replay of an unchanged snapshot yields a zero aggregate delta -/

/-- C6: feeding the same keyed snapshot to `save_traffic_snapshot` twice in
immediate succession (first write at a fresh timestamp `t1`, counters
unchanged) produces an aggregated delta of zero in both directions on the
second feed. -/
theorem replay_second_feed_zero (h : List TrafficRow) (server : String)
    (sessions : List VPNSession) (t1 t2 : Nat)
    (hts : ∀ r ∈ h, isRawFor server r = true → r.timestamp < t1)
    (hnd : (sessions.map sessionKeyOf).Nodup) :
    (aggRowOf (save_traffic_snapshot h server sessions [] t1) server sessions [] t2).bytes_in = 0 ∧
    (aggRowOf (save_traffic_snapshot h server sessions [] t1) server sessions [] t2).bytes_out = 0 := by
  have hprev : ∀ s ∈ sessions,
      prevTraffic (save_traffic_snapshot h server sessions [] t1) server (sessionKeyOf s) =
        some (s.bytes_received, s.bytes_sent) := by
    intro s hs
    rw [prevTraffic_snapshot h server sessions [] t1 (sessionKeyOf s) hts]
    rw [if_neg (List.ne_nil_of_mem hs)]
    unfold valueIn
    rw [filter_key_singleton sessions hnd s hs]
    rfl
  have htot : totalDeltas (save_traffic_snapshot h server sessions [] t1) server sessions [] = 0 := by
    unfold totalDeltas
    rw [List.map_nil, List.sum_nil, add_zero]
    apply List.sum_eq_zero
    intro x hx
    rcases List.mem_map.mp hx with ⟨s, hs, rfl⟩
    rw [hprev s hs]
    simp [activeDelta]
  constructor
  · show (totalDeltas (save_traffic_snapshot h server sessions [] t1) server sessions []).1 = 0
    rw [htot]
    rfl
  · show (totalDeltas (save_traffic_snapshot h server sessions [] t1) server sessions []).2 = 0
    rw [htot]
    rfl

/-- Witness for C6: two sessions fed twice with unchanged counters; the second
aggregated row is (0, 0). -/
theorem replay_second_feed_zero_witness :
    (aggRowOf (save_traffic_snapshot [] ("s1")
        [obsOf ("alice") ("s1") ("10.0.0.5") ("4444") 777 888,
         obsOf ("bob") ("s1") ("10.0.0.6") ("5555") 10 20] [] 5) ("s1")
        [obsOf ("alice") ("s1") ("10.0.0.5") ("4444") 777 888,
         obsOf ("bob") ("s1") ("10.0.0.6") ("5555") 10 20] [] 6).bytes_in = 0 ∧
    (aggRowOf (save_traffic_snapshot [] ("s1")
        [obsOf ("alice") ("s1") ("10.0.0.5") ("4444") 777 888,
         obsOf ("bob") ("s1") ("10.0.0.6") ("5555") 10 20] [] 5) ("s1")
        [obsOf ("alice") ("s1") ("10.0.0.5") ("4444") 777 888,
         obsOf ("bob") ("s1") ("10.0.0.6") ("5555") 10 20] [] 6).bytes_out = 0 := by
  exact replay_second_feed_zero [] ("s1")
    [obsOf ("alice") ("s1") ("10.0.0.5") ("4444") 777 888,
     obsOf ("bob") ("s1") ("10.0.0.6") ("5555") 10 20] 5 6
    (by intro r hr; simp at hr) (by decide)

/-! ## Closing disconnected sessions: counting lemmas for the reconciler -/

theorem uniqueActive_pair (r1 r2 : SessionRow) (hne : rowKey r1 ≠ rowKey r2) :
    UniqueActive [r1, r2] := by
  intro κ
  unfold keyActiveCount
  rw [List.countP_cons, List.countP_cons, List.countP_nil]
  by_cases h1 : rowKey r1 = κ ∧ r1.disconnected_at = none
  · have h2 : ¬ (rowKey r2 = κ ∧ r2.disconnected_at = none) := by
      intro h2
      exact hne (h1.1.trans h2.1.symm)
    simp [h1, h2]
  · simp only [decide_eq_true_eq, if_neg h1]
    split <;> omega

theorem closing_fold_count_le (server : String) (now : Nat)
    (κ : String × String × String × String) :
    ∀ (ds st : List SessionRow),
      keyActiveCount
        (ds.foldl (fun acc r => save_session acc (closedSession server now r)) st) κ ≤
        keyActiveCount st κ := by
  intro ds
  induction ds with
  | nil => intro st; exact le_refl _
  | cons a rest ih =>
    intro st
    refine le_trans (ih (save_session st (closedSession server now a))) ?_
    by_cases hk : κ = obsKey (closedSession server now a)
    · rw [hk, keyActiveCount_save_self_closed (closedSession server now a) now rfl st]
      omega
    · rw [keyActiveCount_save_other (closedSession server now a) κ hk st]

theorem closing_fold_count_zero (server : String) (now : Nat)
    (κ : String × String × String × String) :
    ∀ (ds st : List SessionRow),
      keyActiveCount st κ ≤ 1 →
      (keyActiveCount st κ = 0 ∨ ∃ r ∈ ds, obsKey (closedSession server now r) = κ) →
      keyActiveCount
        (ds.foldl (fun acc r => save_session acc (closedSession server now r)) st) κ = 0 := by
  intro ds
  induction ds with
  | nil =>
    intro st hle hcase
    rcases hcase with h0 | ⟨r, hr, _⟩
    · exact h0
    · simp at hr
  | cons a rest ih =>
    intro st hle hcase
    show keyActiveCount
      (rest.foldl (fun acc r => save_session acc (closedSession server now r))
        (save_session st (closedSession server now a))) κ = 0
    by_cases hk : κ = obsKey (closedSession server now a)
    · have hz : keyActiveCount (save_session st (closedSession server now a)) κ = 0 := by
        rw [hk, keyActiveCount_save_self_closed (closedSession server now a) now rfl st]
        rw [← hk]
        omega
      exact ih _ (by omega) (Or.inl hz)
    · have heq : keyActiveCount (save_session st (closedSession server now a)) κ =
          keyActiveCount st κ :=
        keyActiveCount_save_other (closedSession server now a) κ hk st
      rcases hcase with h0 | ⟨r, hr, hrk⟩
      · exact ih _ (by omega) (Or.inl (heq.trans h0))
      · rcases List.mem_cons.mp hr with rfl | hr2
        · exact absurd hrk.symm hk
        · exact ih _ (by omega) (Or.inr ⟨r, hr2, hrk⟩)

theorem foldl_save_other_count (κ : String × String × String × String) :
    ∀ (l : List VPNSession), (∀ s ∈ l, obsKey s ≠ κ) →
      ∀ st, keyActiveCount (l.foldl (fun acc s2 => save_session acc s2) st) κ =
        keyActiveCount st κ := by
  intro l
  induction l with
  | nil => intro _ st; rfl
  | cons a rest ih =>
    intro hne st
    show keyActiveCount
      (rest.foldl (fun acc s2 => save_session acc s2) (save_session st a)) κ =
      keyActiveCount st κ
    rw [ih (fun s hs => hne s (List.mem_cons_of_mem a hs)) (save_session st a)]
    exact keyActiveCount_save_other a κ
      (fun he => hne a (List.mem_cons_self a rest) he.symm) st

theorem active_row_in_disconnected (store : List SessionRow) (server : String)
    (sessions : List VPNSession) (u ad pt : String)
    (habs : (u, ad, pt) ∉ sessions.map collectKey)
    (r : SessionRow) (hr : r ∈ store) (hkey : rowKey r = (u, server, ad, pt))
    (hact : r.disconnected_at = none) :
    r ∈ disconnectedData store server sessions := by
  have hcomp : r.username = u ∧ r.server_name = server ∧
      r.real_address = ad ∧ r.real_address_port = pt := by
    unfold rowKey at hkey
    simp [Prod.ext_iff] at hkey
    exact ⟨hkey.1, hkey.2.1, hkey.2.2.1, hkey.2.2.2⟩
  unfold disconnectedData dbActiveSessions
  rw [List.filter_filter]
  refine List.mem_filter.mpr ⟨hr, ?_⟩
  have hck : rowCollectKey r = (u, ad, pt) := by
    unfold rowCollectKey
    rw [hcomp.1, hcomp.2.2.1, hcomp.2.2.2]
  simp [hact, hcomp.2.1, hck, habs]

/-- After a cycle in which a key's triple is absent from the parsed snapshot,
no active row with that key (for this server) remains in the store. -/
theorem collect_server_closes (store : List SessionRow) (h : List TrafficRow)
    (server : String) (contents : Option (List String))
    (pd : String → Option Nat) (now : Nat) (u ad pt : String)
    (hκ1 : keyActiveCount store (u, server, ad, pt) ≤ 1)
    (habs : (u, ad, pt) ∉ (parse_status_file contents server pd now).map collectKey) :
    keyActiveCount (collect_server store h server contents pd now).1
      (u, server, ad, pt) = 0 := by
  have hobs : ∀ s ∈ parse_status_file contents server pd now,
      obsKey s ≠ (u, server, ad, pt) := by
    intro s hs he
    apply habs
    have : collectKey s = (u, ad, pt) := by
      unfold obsKey at he
      simp [Prod.ext_iff] at he
      unfold collectKey
      rw [he.1, he.2.2.1, he.2.2.2]
    exact this ▸ List.mem_map_of_mem collectKey hs
  have hdisc : keyActiveCount store (u, server, ad, pt) = 0 ∨
      ∃ r ∈ disconnectedData store server (parse_status_file contents server pd now),
        obsKey (closedSession server now r) = (u, server, ad, pt) := by
    by_cases h0 : keyActiveCount store (u, server, ad, pt) = 0
    · exact Or.inl h0
    · right
      have hpos : 0 < store.countP (fun r =>
          decide (rowKey r = (u, server, ad, pt) ∧ r.disconnected_at = none)) := by
        unfold keyActiveCount at h0
        omega
      rcases List.countP_pos_iff.mp hpos with ⟨r, hr, hpr⟩
      simp only [decide_eq_true_eq] at hpr
      refine ⟨r, active_row_in_disconnected store server _ u ad pt habs r hr hpr.1 hpr.2, ?_⟩
      unfold closedSession obsKey
      unfold rowKey at hpr
      simp [Prod.ext_iff] at hpr
      simp [hpr.1.1, hpr.1.2.2.1, hpr.1.2.2.2]
  simp only [collect_server]
  split
  case isTrue hemp =>
    exact closing_fold_count_zero server now (u, server, ad, pt) _ store hκ1 hdisc
  case isFalse hne =>
    have hst1 : keyActiveCount
        ((parse_status_file contents server pd now).foldl
          (fun acc s2 => save_session acc s2) store) (u, server, ad, pt) =
        keyActiveCount store (u, server, ad, pt) :=
      foldl_save_other_count (u, server, ad, pt) _ hobs store
    exact closing_fold_count_zero server now (u, server, ad, pt) _ _
      (by rw [hst1]; exact hκ1)
      (by rcases hdisc with h0 | hex
          · exact Or.inl (hst1.trans h0)
          · exact Or.inr hex)

theorem save_session_filter_other_server (server : String) (s : VPNSession)
    (hs : s.server_name = server) :
    ∀ st : List SessionRow,
      (save_session st s).filter (fun r => ! decide (r.server_name = server)) =
        st.filter (fun r => ! decide (r.server_name = server)) := by
  intro st
  induction st with
  | nil =>
    show [insertSessionRow s].filter _ = []
    simp [insertSessionRow, hs]
  | cons r rest ih =>
    simp only [save_session]
    split
    case isTrue h =>
      have hrs : r.server_name = server := by
        have : r.server_name = s.server_name := by
          unfold rowKey obsKey at h
          simp [Prod.ext_iff] at h
          exact h.1.2.1
        rw [this, hs]
      rw [List.filter_cons_of_neg (by simp [updateSessionRow, hrs]),
        List.filter_cons_of_neg (by simp [hrs])]
    case isFalse h =>
      by_cases hrp : r.server_name = server
      · rw [List.filter_cons_of_neg (by simp [hrp]),
          List.filter_cons_of_neg (by simp [hrp])]
        exact ih
      · rw [List.filter_cons_of_pos (by simp [hrp]),
          List.filter_cons_of_pos (by simp [hrp]), ih]

theorem closing_fold_filter_other (server : String) (now : Nat) :
    ∀ (ds st : List SessionRow),
      ((ds.foldl (fun acc r => save_session acc (closedSession server now r)) st).filter
        (fun r => ! decide (r.server_name = server))) =
        st.filter (fun r => ! decide (r.server_name = server)) := by
  intro ds
  induction ds with
  | nil => intro st; rfl
  | cons a rest ih =>
    intro st
    show ((rest.foldl (fun acc r => save_session acc (closedSession server now r))
        (save_session st (closedSession server now a))).filter _) = _
    rw [ih (save_session st (closedSession server now a))]
    exact save_session_filter_other_server server (closedSession server now a) rfl st

/-! ## C4: a missing status file — counterexample and amended behavior -/

/-- Counterexample for C4: with one active alice session stored and the status
file missing, the cycle does change session state — it closes the session
(disconnect timestamp 9, computed duration 6), contradicting "no SessionRecord
is created, updated, or closed for that server by that cycle". -/
theorem missing_file_changes_state :
    (collect_server [rowOf ("alice") ("s1") ("10.0.0.5") ("4444") 100 50 3]
        [] ("s1") none (fun _ => none) 9).1 ≠
      [rowOf ("alice") ("s1") ("10.0.0.5") ("4444") 100 50 3] ∧
    (collect_server [rowOf ("alice") ("s1") ("10.0.0.5") ("4444") 100 50 3]
        [] ("s1") none (fun _ => none) 9).1 =
      [{ rowOf ("alice") ("s1") ("10.0.0.5") ("4444") 100 50 3 with
          disconnected_at := some 9, session_duration := some 6 }] := by
  constructor
  · decide
  · decide

/-- C4 amended: a missing or unreadable status file yields zero observations,
but the cycle does not leave session state unchanged: it treats the empty
snapshot as a roster and closes every previously-active session of that
server, while rows of other servers are untouched. -/
theorem missing_file_closes_all (store : List SessionRow) (h : List TrafficRow)
    (server : String) (pd : String → Option Nat) (now : Nat)
    (hinv : UniqueActive store) :
    parse_status_file none server pd now = [] ∧
    (∀ u ad pt : String,
      keyActiveCount (collect_server store h server none pd now).1
        (u, server, ad, pt) = 0) ∧
    ((collect_server store h server none pd now).1.filter
        (fun r => ! decide (r.server_name = server)) =
      store.filter (fun r => ! decide (r.server_name = server))) := by
  refine ⟨rfl, ?_, ?_⟩
  · intro u ad pt
    exact collect_server_closes store h server none pd now u ad pt
      (hinv (u, server, ad, pt)) (by simp [parse_status_file])
  · show (((disconnectedData store server []).foldl
        (fun st r => save_session st (closedSession server now r)) store).filter
          (fun r => ! decide (r.server_name = server))) = _
    exact closing_fold_filter_other server now _ store

/-- Witness for the amended C4 at a concrete store: one active alice row on
server s1, one bob row on another server. -/
theorem missing_file_closes_all_witness :
    parse_status_file none ("s1") (fun _ => none) 9 = [] ∧
    (∀ u ad pt : String,
      keyActiveCount (collect_server
        [rowOf ("alice") ("s1") ("10.0.0.5") ("4444") 100 50 3,
         rowOf ("bob") ("s2") ("10.0.0.6") ("5555") 1 1 0]
        [] ("s1") none (fun _ => none) 9).1 (u, ("s1"), ad, pt) = 0) ∧
    ((collect_server
        [rowOf ("alice") ("s1") ("10.0.0.5") ("4444") 100 50 3,
         rowOf ("bob") ("s2") ("10.0.0.6") ("5555") 1 1 0]
        [] ("s1") none (fun _ => none) 9).1.filter
        (fun r => ! decide (r.server_name = ("s1"))) =
      ([rowOf ("alice") ("s1") ("10.0.0.5") ("4444") 100 50 3,
        rowOf ("bob") ("s2") ("10.0.0.6") ("5555") 1 1 0]).filter
        (fun r => ! decide (r.server_name = ("s1")))) := by
  exact missing_file_closes_all
    [rowOf ("alice") ("s1") ("10.0.0.5") ("4444") 100 50 3,
     rowOf ("bob") ("s2") ("10.0.0.6") ("5555") 1 1 0]
    [] ("s1") (fun _ => none) 9
    (uniqueActive_pair _ _ (by decide))

/-! ## C3: disconnected sessions are booked once, then never again -/

theorem sum_map_filter_split {α M : Type _} [AddCommMonoid M] (p : α → Bool)
    (f : α → M) :
    ∀ l : List α, (l.map f).sum =
      ((l.filter p).map f).sum + ((l.filter (fun x => ! p x)).map f).sum := by
  intro l
  induction l with
  | nil => simp
  | cons a rest ih =>
    cases hp : p a <;>
      simp [hp, ih, add_assoc, add_left_comm]

theorem keyContribution_zero (h2 : List TrafficRow) (server : String)
    (sessions : List VPNSession) (disc : List SessionRow) (k : String)
    (hs : ∀ s ∈ sessions, sessionKeyOf s ≠ k)
    (hd : ∀ r ∈ disc, rowSessionKey r ≠ k) :
    keyContribution h2 server sessions disc k = 0 := by
  unfold keyContribution
  rw [List.filter_eq_nil_iff.mpr (by intro s hsm; simpa using hs s hsm),
    List.filter_eq_nil_iff.mpr (by intro r hrm; simpa using hd r hrm)]
  simp

theorem disconnectedData_avoids_key (store : List SessionRow) (server : String)
    (sessions : List VPNSession) (u ad pt : String)
    (hcnt : keyActiveCount store (u, server, ad, pt) = 0)
    (hnc : ∀ r ∈ store, rowSessionKey r = joinKey (u, ad, pt) →
      rowCollectKey r = (u, ad, pt)) :
    ∀ r ∈ disconnectedData store server sessions,
      rowSessionKey r ≠ joinKey (u, ad, pt) := by
  intro r hr hk
  unfold disconnectedData dbActiveSessions at hr
  rw [List.filter_filter] at hr
  have hmem := List.mem_filter.mp hr
  have hflags : (r.disconnected_at = none ∧ r.server_name = server) := by
    have := hmem.2
    simp only [Bool.and_eq_true, decide_eq_true_eq] at this
    exact this.2
  have hck := hnc r hmem.1 hk
  have hkey : rowKey r = (u, server, ad, pt) := by
    unfold rowCollectKey at hck
    simp only [Prod.ext_iff] at hck
    unfold rowKey
    simp [Prod.ext_iff, hck.1, hck.2.1, hck.2.2, hflags.2]
  have : 0 < keyActiveCount store (u, server, ad, pt) := by
    unfold keyActiveCount
    refine List.countP_pos_iff.mpr ⟨r, hmem.1, ?_⟩
    simp [hkey, hflags.1]
  omega

/-- C3: (1) a session found disconnected this cycle, with most recent prior
raw sample (p, q) and last-known counters as "current", contributes exactly
the non-negative per-direction difference to the cycle's aggregated row;
(2) the cycle totals decompose as this key's contribution plus the rest;
(3) once a cycle in which the key is absent has run, no active row with that
key remains, and any later cycle in which it is again absent gives it a zero
contribution. -/
theorem disconnect_accounting (h : List TrafficRow) (server : String)
    (d : SessionRow) (p q : Int) (now : Nat)
    (hprev : prevTraffic h server (rowSessionKey d) = some (p, q)) :
    ((aggRowOf h server [] [d] now).bytes_in = max (d.bytes_received - p) 0 ∧
     (aggRowOf h server [] [d] now).bytes_out = max (d.bytes_sent - q) 0) ∧
    (∀ (sessions : List VPNSession) (disc : List SessionRow) (k : String),
      totalDeltas h server sessions disc =
        keyContribution h server sessions disc k +
        totalDeltas h server
          (sessions.filter (fun s => ! decide (sessionKeyOf s = k)))
          (disc.filter (fun r => ! decide (rowSessionKey r = k)))) ∧
    (∀ (store : List SessionRow) (h0 h2 : List TrafficRow)
        (contents contents2 : Option (List String)) (pd : String → Option Nat)
        (t t2 : Nat) (u ad pt : String),
      keyActiveCount store (u, server, ad, pt) ≤ 1 →
      (u, ad, pt) ∉ (parse_status_file contents server pd t).map collectKey →
      (keyActiveCount (collect_server store h0 server contents pd t).1
        (u, server, ad, pt) = 0) ∧
      (∀ store2 : List SessionRow,
        keyActiveCount store2 (u, server, ad, pt) = 0 →
        (∀ r ∈ store2, rowSessionKey r = joinKey (u, ad, pt) →
          rowCollectKey r = (u, ad, pt)) →
        (∀ s ∈ parse_status_file contents2 server pd t2,
          sessionKeyOf s ≠ joinKey (u, ad, pt)) →
        keyContribution h2 server (parse_status_file contents2 server pd t2)
          (disconnectedData store2 server (parse_status_file contents2 server pd t2))
          (joinKey (u, ad, pt)) = 0)) := by
  refine ⟨⟨?_, ?_⟩, ?_, ?_⟩
  · show (totalDeltas h server [] [d]).1 = _
    rw [totalDeltas_single_disc, hprev]
    show (if p ≤ d.bytes_received then d.bytes_received - p else 0) = _
    rcases le_or_lt p d.bytes_received with hle | hlt
    · rw [if_pos hle, max_eq_left (sub_nonneg.mpr hle)]
    · rw [if_neg (not_le.mpr hlt), max_eq_right (le_of_lt (sub_neg.mpr hlt))]
  · show (totalDeltas h server [] [d]).2 = _
    rw [totalDeltas_single_disc, hprev]
    show (if q ≤ d.bytes_sent then d.bytes_sent - q else 0) = _
    rcases le_or_lt q d.bytes_sent with hle | hlt
    · rw [if_pos hle, max_eq_left (sub_nonneg.mpr hle)]
    · rw [if_neg (not_le.mpr hlt), max_eq_right (le_of_lt (sub_neg.mpr hlt))]
  · intro sessions disc k
    unfold totalDeltas keyContribution
    rw [sum_map_filter_split (fun s => decide (sessionKeyOf s = k)) _ sessions,
      sum_map_filter_split (fun r => decide (rowSessionKey r = k)) _ disc]
    exact add_add_add_comm _ _ _ _
  · intro store h0 h2 contents contents2 pd t t2 u ad pt hκ1 habs
    refine ⟨collect_server_closes store h0 server contents pd t u ad pt hκ1 habs, ?_⟩
    intro store2 hcnt hnc hobs
    exact keyContribution_zero h2 server _ _ _ hobs
      (disconnectedData_avoids_key store2 server _ u ad pt hcnt hnc)

/-- Witness for C3 at the spec's concrete numbers: prior raw sample (100, 50),
last-known counters (300, 150), booked delta (200, 100); plus concrete
instances of the decomposition and of the later-cycle zero contribution. -/
theorem disconnect_accounting_witness :
    ((aggRowOf [rawRowOf ("s1") 1 (obsOf ("alice") ("s1") ("10.0.0.5") ("4444") 100 50)]
        ("s1") [] [rowOf ("alice") ("s1") ("10.0.0.5") ("4444") 300 150 0] 2).bytes_in = 200 ∧
     (aggRowOf [rawRowOf ("s1") 1 (obsOf ("alice") ("s1") ("10.0.0.5") ("4444") 100 50)]
        ("s1") [] [rowOf ("alice") ("s1") ("10.0.0.5") ("4444") 300 150 0] 2).bytes_out = 100) ∧
    (keyActiveCount (collect_server
        [rowOf ("alice") ("s1") ("10.0.0.5") ("4444") 300 150 0]
        [] ("s1") none (fun _ => none) 2).1
        (("alice"), ("s1"), ("10.0.0.5"), ("4444")) = 0) ∧
    (keyContribution [] ("s1") [] (disconnectedData [] ("s1") [])
      (joinKey (("alice"), ("10.0.0.5"), ("4444"))) = 0) := by
  have H := disconnect_accounting
    [rawRowOf ("s1") 1 (obsOf ("alice") ("s1") ("10.0.0.5") ("4444") 100 50)]
    ("s1") (rowOf ("alice") ("s1") ("10.0.0.5") ("4444") 300 150 0) 100 50 2
    (by decide)
  have H3 := H.2.2 [rowOf ("alice") ("s1") ("10.0.0.5") ("4444") 300 150 0]
    [] [] none none (fun _ => none) 2 3 ("alice") ("10.0.0.5") ("4444")
    (List.countP_le_length _) (by simp [parse_status_file])
  refine ⟨⟨H.1.1.trans (by decide), H.1.2.trans (by decide)⟩, H3.1, ?_⟩
  exact H3.2 [] rfl (by intro r hr; simp at hr) (by intro s hs; simp [parse_status_file] at hs)

/-! ## C5: conservation between per-identity and per-server series -/

/-- Counterexample for C5: alice is sampled at t = 1 with cumulative (100, 0)
and at t = 2 with (150, 0). For the window `since = 1` (covering only t = 2),
the per-server aggregated series reports the delta 50 bytes at bucket 2, but
the per-identity view re-derives deltas from the raw rows inside the window
only, counts alice's first in-window sample in full, and reports 150 bytes —
off by 100 bytes (and the reported figures additionally differ by the MB vs GB
unit factor), far beyond rounding. -/
theorem conservation_counterexample :
    usersSeries
      (save_traffic_snapshot
        (save_traffic_snapshot [] ("s1")
          [obsOf ("alice") ("s1") ("10.0.0.5") ("4444") 100 0] [] 1)
        ("s1") [obsOf ("alice") ("s1") ("10.0.0.5") ("4444") 150 0] [] 2)
      [("alice")] (some ("s1")) 1 (fun t => t) 2 = (150, 0) ∧
    serverSeries
      (save_traffic_snapshot
        (save_traffic_snapshot [] ("s1")
          [obsOf ("alice") ("s1") ("10.0.0.5") ("4444") 100 0] [] 1)
        ("s1") [obsOf ("alice") ("s1") ("10.0.0.5") ("4444") 150 0] [] 2)
      ("s1") 1 (fun t => t) 2 = (50, 0) ∧
    ((150 : Int), (0 : Int)) ≠ ((50 : Int), (0 : Int)) ∧
    (150 : ℚ) / 1048576 ≠ (50 : ℚ) / 1073741824 := by
  refine ⟨by decide, by decide, by decide, by norm_num⟩

theorem sum_map_zero {α M : Type _} [AddCommMonoid M] (l : List α) :
    (l.map (fun _ => (0 : M))).sum = 0 := by
  apply List.sum_eq_zero
  intro x hx
  rcases List.mem_map.mp hx with ⟨_, _, rfl⟩
  rfl

theorem sum_map_ite_of_const {α M : Type _} [AddCommMonoid M] (l : List α)
    (c : Prop) [Decidable c] (f : α → M) :
    (l.map (fun x => if c then f x else 0)).sum = if c then (l.map f).sum else 0 := by
  by_cases hc : c
  · simp [hc]
  · simp [hc, sum_map_zero]

theorem sum_map_update {α M : Type _} [DecidableEq α] [AddCommMonoid M] :
    ∀ (K : List α), K.Nodup → ∀ a ∈ K, ∀ f g : α → M,
      (K.map (fun k => if a = k then f k else g k)).sum =
        f a + (K.map (fun k => if a = k then 0 else g k)).sum := by
  intro K
  induction K with
  | nil => intro _ a ha; simp at ha
  | cons k0 K2 ih =>
    intro hnd a ha f g
    have hnd2 := List.nodup_cons.mp hnd
    rcases List.mem_cons.mp ha with rfl | ha2
    · simp only [List.map_cons, List.sum_cons, if_pos rfl]
      have hcong : ∀ h2 : α → M, (K2.map (fun k => if a = k then h2 k else g k)).sum =
          (K2.map g).sum := by
        intro h2
        congr 1
        apply List.map_congr_left
        intro k hk
        have hak : ¬ a = k := by
          intro he
          exact hnd2.1 (he ▸ hk)
        rw [if_neg hak]
      rw [hcong f, hcong (fun _ => 0)]
      simp
    · have hne : a ≠ k0 := by
        intro he
        exact hnd2.1 (he ▸ ha2)
      simp only [List.map_cons, List.sum_cons, if_neg hne]
      rw [ih hnd2.2 a ha2 f g, add_left_comm]

theorem sum_map_extend {α M : Type _} [DecidableEq α] [AddCommMonoid M] :
    ∀ (K L : List α), L.Nodup → K.Nodup → (∀ x ∈ L, x ∈ K) →
      ∀ f : α → M, (∀ x ∈ K, x ∉ L → f x = 0) →
      (L.map f).sum = (K.map f).sum := by
  intro K
  induction K with
  | nil =>
    intro L _ _ hsub f _
    have : L = [] := List.eq_nil_iff_forall_not_mem.mpr
      (fun x hx => by simpa using hsub x hx)
    subst this
    rfl
  | cons k0 K2 ih =>
    intro L hL hK hsub f hz
    have hK2 := List.nodup_cons.mp hK
    by_cases hk0 : k0 ∈ L
    · have hperm : L.Perm (k0 :: L.erase k0) := List.perm_cons_erase hk0
      rw [(hperm.map f).sum_eq]
      simp only [List.map_cons, List.sum_cons]
      congr 1
      refine ih (L.erase k0) (hL.erase k0) hK2.2 ?_ f ?_
      · intro x hx
        have hxm := (List.Nodup.mem_erase_iff hL).mp hx
        rcases List.mem_cons.mp (hsub x hxm.2) with rfl | h2
        · exact absurd rfl hxm.1
        · exact h2
      · intro x hx hnx
        refine hz x (List.mem_cons_of_mem k0 hx) ?_
        intro hxL
        have hxk : x ≠ k0 := by
          intro he
          exact hK2.1 (he ▸ hx)
        exact hnx ((List.Nodup.mem_erase_iff hL).mpr ⟨hxk, hxL⟩)
    · simp only [List.map_cons, List.sum_cons]
      rw [hz k0 (List.mem_cons_self k0 K2) hk0, zero_add]
      refine ih L hL hK2.2 ?_ f ?_
      · intro x hx
        rcases List.mem_cons.mp (hsub x hx) with rfl | h2
        · exact absurd hx hk0
        · exact h2
      · intro x hx hnx
        exact hz x (List.mem_cons_of_mem k0 hx) hnx

theorem sum_map_single {α M : Type _} [DecidableEq α] [AddCommMonoid M] :
    ∀ (L : List α), L.Nodup → ∀ a ∈ L, ∀ f : α → M,
      (∀ x ∈ L, x ≠ a → f x = 0) → (L.map f).sum = f a := by
  intro L
  induction L with
  | nil => intro _ a ha; simp at ha
  | cons b L2 ih =>
    intro hnd a ha f hz
    have hnd2 := List.nodup_cons.mp hnd
    rcases List.mem_cons.mp ha with rfl | ha2
    · simp only [List.map_cons, List.sum_cons]
      rw [List.sum_eq_zero, add_zero]
      intro x hx
      rcases List.mem_map.mp hx with ⟨y, hy, rfl⟩
      exact hz y (List.mem_cons_of_mem a hy) (fun he => hnd2.1 (he ▸ hy))
    · have hba : b ≠ a := fun he => hnd2.1 (he ▸ ha2)
      simp only [List.map_cons, List.sum_cons]
      rw [hz b (List.mem_cons_self b L2) hba, zero_add]
      exact ih hnd2.2 a ha2 f (fun x hx hxa => hz x (List.mem_cons_of_mem b hx) hxa)

theorem sum_map_comm {α β M : Type _} [AddCommMonoid M] (us : List α)
    (ks : List β) (G : α → β → M) :
    (us.map (fun u => (ks.map (G u)).sum)).sum =
      (ks.map (fun k => (us.map (fun u => G u k)).sum)).sum := by
  induction us with
  | nil => simp [sum_map_zero]
  | cons u0 us2 ih =>
    simp only [List.map_cons, List.sum_cons, ih]
    rw [← List.sum_map_add]

@[simp]
theorem allObs_nil : allObs [] = [] := rfl

@[simp]
theorem allObs_cons (c : Nat × List VPNSession)
    (cycles : List (Nat × List VPNSession)) :
    allObs (c :: cycles) = c.2 ++ allObs cycles := by
  simp [allObs]

theorem valueIn_nil (k : String) : valueIn [] k = none := rfl

theorem valueIn_eq_none (obs : List VPNSession) (k : String)
    (h : ∀ s ∈ obs, sessionKeyOf s ≠ k) : valueIn obs k = none := by
  unfold valueIn
  rw [List.filter_eq_nil_iff.mpr (by intro s hs; simpa using h s hs)]
  rfl

theorem valueIn_ne_none (obs : List VPNSession) (k : String)
    (h : valueIn obs k ≠ none) : ∃ s ∈ obs, sessionKeyOf s = k := by
  by_contra hno
  push_neg at hno
  exact h (valueIn_eq_none obs k hno)

theorem valueIn_cons (s : VPNSession) (rest : List VPNSession) (k : String)
    (hnd : ((s :: rest).map sessionKeyOf).Nodup) :
    valueIn (s :: rest) k =
      if sessionKeyOf s = k then some (s.bytes_received, s.bytes_sent)
      else valueIn rest k := by
  have hnd2 : (∀ y ∈ rest, sessionKeyOf y ≠ sessionKeyOf s) ∧
      (rest.map sessionKeyOf).Nodup := by simpa using hnd
  unfold valueIn
  by_cases hk : sessionKeyOf s = k
  · rw [if_pos hk, List.filter_cons_of_pos (by simp [hk])]
    have hrest : rest.filter (fun x => decide (sessionKeyOf x = k)) = [] := by
      refine List.filter_eq_nil_iff.mpr ?_
      intro x hx
      simp only [decide_eq_true_eq]
      intro hxk
      exact hnd2.1 x hx (hxk.trans hk.symm)
    rw [hrest]
    rfl
  · rw [if_neg hk, List.filter_cons_of_neg (by simpa using hk)]

theorem sum_over_keys {M : Type _} [AddCommMonoid M] (f : String → Int × Int → M) :
    ∀ (obs : List VPNSession) (K : List String), K.Nodup →
      (obs.map sessionKeyOf).Nodup → (∀ s ∈ obs, sessionKeyOf s ∈ K) →
      (K.map (fun k =>
        match valueIn obs k with
        | some v => f k v
        | none => 0)).sum =
      (obs.map (fun s => f (sessionKeyOf s) (s.bytes_received, s.bytes_sent))).sum := by
  intro obs
  induction obs with
  | nil =>
    intro K _ _ _
    simp only [List.map_nil, List.sum_nil]
    rw [List.sum_eq_zero]
    intro x hx
    rcases List.mem_map.mp hx with ⟨k, _, rfl⟩
    rfl
  | cons s rest ih =>
    intro K hK hnd hsub
    have hnd2 : (∀ y ∈ rest, sessionKeyOf y ≠ sessionKeyOf s) ∧
        (rest.map sessionKeyOf).Nodup := by simpa using hnd
    have hks : sessionKeyOf s ∈ K := hsub s (List.mem_cons_self s rest)
    have hterm : ∀ k ∈ K,
        (match valueIn (s :: rest) k with
          | some v => f k v
          | none => (0 : M)) =
        (if sessionKeyOf s = k then f k (s.bytes_received, s.bytes_sent)
         else
          match valueIn rest k with
          | some v => f k v
          | none => 0) := by
      intro k hk
      rw [valueIn_cons s rest k hnd]
      by_cases hsk : sessionKeyOf s = k
      · rw [if_pos hsk, if_pos hsk]
      · rw [if_neg hsk, if_neg hsk]
    rw [List.map_congr_left hterm,
      sum_map_update K hK (sessionKeyOf s) hks
        (fun k => f k (s.bytes_received, s.bytes_sent))
        (fun k =>
          match valueIn rest k with
          | some v => f k v
          | none => 0)]
    have hcol : ∀ k ∈ K,
        (if sessionKeyOf s = k then (0 : M)
         else
          match valueIn rest k with
          | some v => f k v
          | none => 0) =
        (match valueIn rest k with
          | some v => f k v
          | none => 0) := by
      intro k hk
      by_cases hsk : sessionKeyOf s = k
      · rw [if_pos hsk]
        have hvn : valueIn rest k = none := by
          refine valueIn_eq_none rest k ?_
          intro x hx hxk
          exact hnd2.1 x hx (hxk.trans hsk.symm)
        rw [hvn]
      · rw [if_neg hsk]
    rw [List.map_congr_left hcol,
      ih K hK hnd2.2 (fun x hx => hsub x (List.mem_cons_of_mem s hx))]
    simp

theorem goodCycles_absent (k : String) :
    ∀ (cycles : List (Nat × List VPNSession)) (prevObs : List VPNSession)
      (seen : List String),
      GoodCycles prevObs seen cycles → k ∈ seen →
      k ∉ prevObs.map sessionKeyOf →
      ∀ s ∈ allObs cycles, sessionKeyOf s ≠ k := by
  intro cycles
  induction cycles with
  | nil => intro _ _ _ _ _ s hs; simp at hs
  | cons c rest ih =>
    intro prevObs seen hgc hseen hnp s hs hk
    obtain ⟨hnd, hgap, htail⟩ := hgc
    rw [allObs_cons] at hs
    rcases List.mem_append.mp hs with hs1 | hs2
    · exact hnp (hk ▸ hgap s hs1 (hk ▸ hseen))
    · refine ih (if c.2 = [] then prevObs else c.2) (seen ++ c.2.map sessionKeyOf)
        htail (List.mem_append_left _ hseen) ?_ s hs2 hk
      by_cases hemp : c.2 = []
      · rw [if_pos hemp]
        exact hnp
      · rw [if_neg hemp]
        intro hkc
        rcases List.mem_map.mp hkc with ⟨s2, hs2c, hks2⟩
        exact hnp (hks2 ▸ hgap s2 hs2c (hks2.symm ▸ hseen))

theorem runCycles_filter (server : String) (P : TrafficRow → Bool)
    (hagg : ∀ r : TrafficRow, r.username = none → P r = false) :
    ∀ (cycles : List (Nat × List VPNSession)) (h : List TrafficRow),
      (runCycles server h cycles).filter P =
        h.filter P ++
          (cycles.map (fun c => (c.2.map (rawRowOf server c.1)).filter P)).flatten := by
  intro cycles
  induction cycles with
  | nil => intro h; simp [runCycles]
  | cons c rest ih =>
    intro h
    show (runCycles server (save_traffic_snapshot h server c.2 [] c.1) rest).filter P = _
    rw [ih]
    unfold save_traffic_snapshot
    rw [List.filter_append, List.filter_append]
    have hz : [aggRowOf h server c.2 [] c.1].filter P = [] := by
      have := hagg (aggRowOf h server c.2 [] c.1) rfl
      simp [this]
    rw [hz]
    simp

theorem refSeries_congr (slot : Nat → Nat) (b : Nat) :
    ∀ (cycles : List (Nat × List VPNSession))
      (p p2 : String → Option (Int × Int)), (∀ k, p k = p2 k) →
      refSeries slot b p cycles = refSeries slot b p2 cycles := by
  intro cycles
  induction cycles with
  | nil => intro _ _ _; rfl
  | cons c rest ih =>
    intro p p2 hpp
    show (if slot c.1 = b then refCycleTotal p c.2 else 0) +
        refSeries slot b (updatePrev p c.2) rest = _
    have h1 : refCycleTotal p c.2 = refCycleTotal p2 c.2 := by
      unfold refCycleTotal
      congr 1
      apply List.map_congr_left
      intro s _
      rw [hpp]
    have h2 : refSeries slot b (updatePrev p c.2) rest =
        refSeries slot b (updatePrev p2 c.2) rest := by
      apply ih
      intro k
      unfold updatePrev
      split
      · exact hpp k
      · rfl
    rw [h1, h2]
    rfl

theorem totalDeltas_no_disc (h : List TrafficRow) (server : String)
    (obs : List VPNSession) :
    totalDeltas h server obs [] =
      refCycleTotal (fun k => prevTraffic h server k) obs := by
  unfold totalDeltas refCycleTotal
  simp

theorem serverSeries_snapshot (h : List TrafficRow) (server : String)
    (obs : List VPNSession) (disc : List SessionRow) (t since : Nat)
    (slot : Nat → Nat) (b : Nat) (hsince : since < t) :
    serverSeries (save_traffic_snapshot h server obs disc t) server since slot b =
      serverSeries h server since slot b +
        (if slot t = b then totalDeltas h server obs disc else 0) := by
  have hraws : (obs.map (rawRowOf server t)).filter (fun r =>
      decide (since < r.timestamp ∧ r.server_name = server ∧ r.username = none)) = [] := by
    refine List.filter_eq_nil_iff.mpr ?_
    intro r hr
    rcases List.mem_map.mp hr with ⟨s, _, rfl⟩
    simp [rawRowOf]
  have haggm : ([aggRowOf h server obs disc t]).filter (fun r =>
      decide (since < r.timestamp ∧ r.server_name = server ∧ r.username = none)) =
      [aggRowOf h server obs disc t] := by
    simp [aggRowOf, hsince]
  unfold serverSeries serverChartRows save_traffic_snapshot
  simp only [List.filter_append, List.map_append, List.sum_append]
  rw [hraws, haggm]
  simp only [List.filter_nil, List.map_nil, List.sum_nil, add_zero]
  congr 1
  by_cases hb : slot t = b
  · have hf : ([aggRowOf h server obs disc t]).filter (fun r => decide (slot r.timestamp = b)) =
        [aggRowOf h server obs disc t] := by
      simp [aggRowOf, hb]
    rw [hf, if_pos hb]
    simp [aggRowOf]
  · have hf : ([aggRowOf h server obs disc t]).filter (fun r => decide (slot r.timestamp = b)) = [] := by
      simp [aggRowOf, hb]
    rw [hf, if_neg hb]
    rfl

theorem serverSeries_runCycles (server : String) (since : Nat)
    (slot : Nat → Nat) (b : Nat) :
    ∀ (cycles : List (Nat × List VPNSession)) (h : List TrafficRow),
      (∀ r ∈ h, isRawFor server r = true → ∀ c ∈ cycles, r.timestamp < c.1) →
      List.Pairwise (fun a b2 => a < b2) (cycles.map (fun c => c.1)) →
      (∀ c ∈ cycles, since < c.1) →
      serverSeries (runCycles server h cycles) server since slot b =
        serverSeries h server since slot b +
          refSeries slot b (fun k => prevTraffic h server k) cycles := by
  intro cycles
  induction cycles with
  | nil =>
    intro h _ _ _
    show serverSeries h server since slot b = serverSeries h server since slot b + 0
    rw [add_zero]
  | cons c rest ih =>
    intro h hts hpw hsince
    have hpw2 : (∀ t2 ∈ rest.map (fun c2 => c2.1), c.1 < t2) ∧
        List.Pairwise (fun a b2 => a < b2) (rest.map (fun c2 => c2.1)) := by
      rw [List.map_cons] at hpw
      exact ⟨(List.pairwise_cons.mp hpw).1, (List.pairwise_cons.mp hpw).2⟩
    have hlt : ∀ r ∈ h, isRawFor server r = true → r.timestamp < c.1 :=
      fun r hr hraw => hts r hr hraw c (List.mem_cons_self c rest)
    show serverSeries (runCycles server (save_traffic_snapshot h server c.2 [] c.1) rest)
        server since slot b = _
    rw [ih (save_traffic_snapshot h server c.2 [] c.1)
      (by
        intro r hr hraw c2 hc2
        unfold save_traffic_snapshot at hr
        rcases List.mem_append.mp hr with hr1 | hr2
        · rcases List.mem_append.mp hr1 with hr3 | hr4
          · exact hts r hr3 hraw c2 (List.mem_cons_of_mem c hc2)
          · rcases List.mem_map.mp hr4 with ⟨s, _, rfl⟩
            exact hpw2.1 c2.1 (List.mem_map_of_mem _ hc2)
        · simp at hr2
          rw [hr2] at hraw
          rw [isRawFor_aggRowOf] at hraw
          exact absurd hraw (by simp))
      hpw2.2
      (fun c2 hc2 => hsince c2 (List.mem_cons_of_mem c hc2))]
    rw [serverSeries_snapshot h server c.2 [] c.1 since slot b
      (hsince c (List.mem_cons_self c rest))]
    rw [refSeries_congr slot b rest _ _
      (fun k => prevTraffic_snapshot h server c.2 [] c.1 k hlt)]
    rw [totalDeltas_no_disc, add_assoc]
    have hre : refSeries slot b
        (fun k => if c.2 = [] then prevTraffic h server k else valueIn c.2 k) rest =
        refSeries slot b (updatePrev (fun k => prevTraffic h server k) c.2) rest := by
      refine refSeries_congr slot b rest _ _ ?_
      intro k
      by_cases hemp : c.2 = [] <;> simp [updatePrev, hemp]
    rw [hre]
    rfl

@[simp]
theorem rawRowOf_fields (server : String) (t : Nat) (s : VPNSession) :
    (rawRowOf server t s).timestamp = t ∧
    (rawRowOf server t s).bytes_in = s.bytes_received ∧
    (rawRowOf server t s).bytes_out = s.bytes_sent ∧
    (rawRowOf server t s).username = some s.username ∧
    (rawRowOf server t s).session_key = some (sessionKeyOf s) ∧
    (rawRowOf server t s).server_name = server :=
  ⟨rfl, rfl, rfl, rfl, rfl, rfl⟩

theorem keyBucketDeltaFrom_nil (prev : Option (Int × Int)) (slot : Nat → Nat)
    (b : Nat) : keyBucketDeltaFrom prev [] slot b = 0 := by
  cases prev <;> rfl

theorem deltaSeqFrom_cons (prev : Option (Int × Int)) (r : TrafficRow)
    (rows : List TrafficRow) :
    deltaSeqFrom prev (r :: rows) =
      (r.timestamp, activeDelta prev r.bytes_in r.bytes_out) ::
        deltaSeqFrom (some (r.bytes_in, r.bytes_out)) rows := by
  cases prev with
  | none => rfl
  | some v => cases v; rfl

theorem keyBucketDeltaFrom_cons (prev : Option (Int × Int)) (r : TrafficRow)
    (rows : List TrafficRow) (slot : Nat → Nat) (b : Nat) :
    keyBucketDeltaFrom prev (r :: rows) slot b =
      (if slot r.timestamp = b then activeDelta prev r.bytes_in r.bytes_out else 0) +
      keyBucketDeltaFrom (some (r.bytes_in, r.bytes_out)) rows slot b := by
  unfold keyBucketDeltaFrom
  rw [deltaSeqFrom_cons]
  by_cases hb2 : slot r.timestamp = b
  · rw [List.filter_cons_of_pos (by simp [hb2]), if_pos hb2]
    simp
  · rw [List.filter_cons_of_neg (by simp [hb2]), if_neg hb2]
    simp

theorem rowsOfKey_cons (server k : String) (c : Nat × List VPNSession)
    (rest : List (Nat × List VPNSession)) :
    rowsOfKey server k (c :: rest) =
      ((c.2.filter (fun s => decide (sessionKeyOf s = k))).map (rawRowOf server c.1)) ++
        rowsOfKey server k rest := by
  simp [rowsOfKey]

theorem rowsOfKey_nil_of_absent (server k : String)
    (cycles : List (Nat × List VPNSession))
    (h : ∀ s ∈ allObs cycles, sessionKeyOf s ≠ k) :
    rowsOfKey server k cycles = [] := by
  unfold rowsOfKey
  rw [List.flatten_eq_nil_iff]
  intro l hl
  rcases List.mem_map.mp hl with ⟨c, hc, rfl⟩
  rw [List.filter_eq_nil_iff.mpr ?_]
  · rfl
  · intro s hs
    simp only [decide_eq_true_eq]
    refine h s ?_
    unfold allObs
    exact List.mem_flatten.mpr ⟨c.2, List.mem_map_of_mem _ hc, hs⟩

theorem filter_keyk_singleton (l : List VPNSession)
    (hnd : (l.map sessionKeyOf).Nodup) (s : VPNSession) (hs : s ∈ l)
    (k : String) (hk : sessionKeyOf s = k) :
    l.filter (fun x => decide (sessionKeyOf x = k)) = [s] := by
  subst hk
  exact filter_key_singleton l hnd s hs

/-- Per-key delta walk over the written raw rows matches the per-cycle
reference deltas: the key of the whole conservation argument. -/
theorem sum_keyBucket_refSeries (server : String) (slot : Nat → Nat) (b : Nat) :
    ∀ (cycles : List (Nat × List VPNSession)) (prevObs : List VPNSession)
      (seen : List String) (p : String → Option (Int × Int)) (K : List String),
      GoodCycles prevObs seen cycles →
      (∀ k, p k = valueIn prevObs k) →
      (∀ k ∈ prevObs.map sessionKeyOf, k ∈ seen) →
      K.Nodup →
      (∀ s ∈ allObs cycles, sessionKeyOf s ∈ K) →
      (K.map (fun k =>
        keyBucketDeltaFrom (p k) (rowsOfKey server k cycles) slot b)).sum =
        refSeries slot b p cycles := by
  intro cycles
  induction cycles with
  | nil =>
    intro prevObs seen p K _ _ _ _ _
    show _ = (0 : Int × Int)
    apply List.sum_eq_zero
    intro x hx
    rcases List.mem_map.mp hx with ⟨k, _, rfl⟩
    exact keyBucketDeltaFrom_nil _ _ _
  | cons c rest ih =>
    intro prevObs seen p K hgc hpv hsub hK hKsub
    obtain ⟨hnd, hgap, htail⟩ := hgc
    have hterm : ∀ k ∈ K,
        keyBucketDeltaFrom (p k) (rowsOfKey server k (c :: rest)) slot b =
          (match valueIn c.2 k with
            | some v => if slot c.1 = b then activeDelta (p k) v.1 v.2 else 0
            | none => 0) +
          keyBucketDeltaFrom (updatePrev p c.2 k) (rowsOfKey server k rest) slot b := by
      intro k _
      rw [rowsOfKey_cons]
      cases hv : valueIn c.2 k with
      | some v =>
        have hvne : valueIn c.2 k ≠ none := by rw [hv]; exact Option.some_ne_none v
        rcases valueIn_ne_none c.2 k hvne with ⟨sk, hskm, hskk⟩
        have hfil : c.2.filter (fun x => decide (sessionKeyOf x = k)) = [sk] :=
          filter_keyk_singleton c.2 hnd sk hskm k hskk
        have hvv : v = (sk.bytes_received, sk.bytes_sent) := by
          have hvi : valueIn c.2 k = some (sk.bytes_received, sk.bytes_sent) := by
            unfold valueIn
            rw [hfil]
            rfl
          exact Option.some.inj (hv.symm.trans hvi)
        have hup : updatePrev p c.2 k = some (sk.bytes_received, sk.bytes_sent) := by
          unfold updatePrev
          rw [if_neg (List.ne_nil_of_mem hskm)]
          unfold valueIn
          rw [hfil]
          rfl
        rw [hfil]
        simp only [List.map_cons, List.map_nil, List.singleton_append]
        rw [keyBucketDeltaFrom_cons]
        rw [hup, hvv]
        rfl
      | none =>
        have hnok : ∀ s ∈ c.2, sessionKeyOf s ≠ k := by
          intro s hsm hsk
          have : valueIn c.2 k ≠ none := by
            unfold valueIn
            rw [filter_keyk_singleton c.2 hnd s hsm k hsk]
            simp
          exact this hv
        have hfil : c.2.filter (fun x => decide (sessionKeyOf x = k)) = [] :=
          List.filter_eq_nil_iff.mpr (fun s hs => by simpa using hnok s hs)
        rw [hfil]
        simp only [List.map_nil, List.nil_append]
        by_cases hemp : c.2 = []
        · rw [show updatePrev p c.2 k = p k by unfold updatePrev; rw [if_pos hemp]]
          rw [zero_add]
        · have hup : updatePrev p c.2 k = none := by
            unfold updatePrev
            rw [if_neg hemp]
            exact hv
          cases hp : p k with
          | none =>
            rw [hup, zero_add]
          | some v0 =>
            have hkseen : k ∈ seen := by
              have : valueIn prevObs k ≠ none := by
                rw [← hpv k, hp]
                exact Option.some_ne_none v0
              rcases valueIn_ne_none prevObs k this with ⟨s2, hs2, hks2⟩
              exact hsub k (hks2 ▸ List.mem_map_of_mem sessionKeyOf hs2)
            have habs : ∀ s ∈ allObs rest, sessionKeyOf s ≠ k := by
              refine goodCycles_absent k rest (if c.2 = [] then prevObs else c.2)
                (seen ++ c.2.map sessionKeyOf) htail
                (List.mem_append_left _ hkseen) ?_
              rw [if_neg hemp]
              intro hkc
              rcases List.mem_map.mp hkc with ⟨s2, hs2c, hks2⟩
              exact hnok s2 hs2c hks2
            rw [rowsOfKey_nil_of_absent server k rest habs,
              keyBucketDeltaFrom_nil, keyBucketDeltaFrom_nil, zero_add]
    rw [List.map_congr_left hterm, List.sum_map_add]
    have htailsum : (K.map (fun k =>
        keyBucketDeltaFrom (updatePrev p c.2 k) (rowsOfKey server k rest) slot b)).sum =
        refSeries slot b (updatePrev p c.2) rest := by
      refine ih (if c.2 = [] then prevObs else c.2) (seen ++ c.2.map sessionKeyOf)
        (updatePrev p c.2) K htail ?_ ?_ hK ?_
      · intro k
        by_cases hemp : c.2 = []
        · rw [if_pos hemp]
          unfold updatePrev
          rw [if_pos hemp]
          exact hpv k
        · rw [if_neg hemp]
          unfold updatePrev
          rw [if_neg hemp]
      · intro k hkm
        by_cases hemp : c.2 = []
        · rw [if_pos hemp] at hkm
          exact List.mem_append_left _ (hsub k hkm)
        · rw [if_neg hemp] at hkm
          exact List.mem_append_right _ hkm
      · intro s hs
        refine hKsub s ?_
        rw [allObs_cons]
        exact List.mem_append_right _ hs
    rw [htailsum]
    have hheadsum : (K.map (fun k =>
        (match valueIn c.2 k with
          | some v => if slot c.1 = b then activeDelta (p k) v.1 v.2 else 0
          | none => 0))).sum =
        (if slot c.1 = b then refCycleTotal p c.2 else 0) := by
      have hsw : ∀ k ∈ K,
          (match valueIn c.2 k with
            | some v => if slot c.1 = b then activeDelta (p k) v.1 v.2 else 0
            | none => (0 : Int × Int)) =
          (if slot c.1 = b then
            (match valueIn c.2 k with
              | some v => activeDelta (p k) v.1 v.2
              | none => 0) else 0) := by
        intro k _
        cases valueIn c.2 k with
        | some v => rfl
        | none => by_cases hb2 : slot c.1 = b <;> simp [hb2]
      rw [List.map_congr_left hsw, sum_map_ite_of_const]
      by_cases hb2 : slot c.1 = b
      · rw [if_pos hb2, if_pos hb2]
        rw [sum_over_keys (fun k v => activeDelta (p k) v.1 v.2) c.2 K hK hnd
          (fun s hs => hKsub s (by rw [allObs_cons]; exact List.mem_append_left _ hs))]
        rfl
      · rw [if_neg hb2, if_neg hb2]
    rw [hheadsum]
    rfl

theorem filter_flatten {α : Type _} (p : α → Bool) :
    ∀ L : List (List α),
      (L.flatten).filter p = (L.map (fun l => l.filter p)).flatten := by
  intro L
  induction L with
  | nil => rfl
  | cons l L2 ih =>
    rw [List.flatten_cons, List.filter_append, ih]
    rfl

theorem userChartRows_runCycles (server u : String) (since : Nat)
    (cycles : List (Nat × List VPNSession))
    (hsince : ∀ c ∈ cycles, since < c.1) :
    userChartRows (runCycles server [] cycles) u (some server) none since =
      (cycles.map (fun c =>
        ((c.2.filter (fun s => decide (s.username = u))).map
          (rawRowOf server c.1)))).flatten := by
  unfold userChartRows
  rw [runCycles_filter server _ (by
    intro r hr
    simp [hr]) cycles []]
  rw [show ([] : List TrafficRow).filter _ = [] from rfl, List.nil_append]
  congr 1
  apply List.map_congr_left
  intro c hc
  rw [List.filter_map]
  congr 1
  apply List.filter_congr
  intro s _
  simp [Function.comp_def, rawRowOf, serverFilterOk, keyFilterOk, hsince c hc]

theorem userRows_key (server u k : String)
    (cycles : List (Nat × List VPNSession)) :
    ((cycles.map (fun c =>
      ((c.2.filter (fun s => decide (s.username = u))).map
        (rawRowOf server c.1)))).flatten).filter
          (fun r => decide (r.session_key = some k)) =
    (cycles.map (fun c =>
      ((c.2.filter (fun s =>
        decide (sessionKeyOf s = k) && decide (s.username = u))).map
          (rawRowOf server c.1)))).flatten := by
  rw [filter_flatten]
  rw [List.map_map]
  congr 1
  apply List.map_congr_left
  intro c _
  show ((c.2.filter (fun s => decide (s.username = u))).map
    (rawRowOf server c.1)).filter (fun r => decide (r.session_key = some k)) = _
  rw [List.filter_map, List.filter_filter]
  congr 1
  apply List.filter_congr
  intro s _
  simp [Function.comp_def, rawRowOf]

/-- Per-key rows of the key's own user coincide with all rows of that key. -/
theorem userRows_key_of_owner (server u k : String)
    (cycles : List (Nat × List VPNSession))
    (hcons : ∀ s ∈ allObs cycles, sessionKeyOf s = k → s.username = u) :
    (cycles.map (fun c =>
      ((c.2.filter (fun s =>
        decide (sessionKeyOf s = k) && decide (s.username = u))).map
          (rawRowOf server c.1)))).flatten = rowsOfKey server k cycles := by
  unfold rowsOfKey
  congr 1
  apply List.map_congr_left
  intro c hc
  congr 1
  apply List.filter_congr
  intro s hs
  have hmem : s ∈ allObs cycles := by
    unfold allObs
    exact List.mem_flatten.mpr ⟨c.2, List.mem_map_of_mem _ hc, hs⟩
  by_cases hks : sessionKeyOf s = k
  · simp [hks, hcons s hmem hks]
  · simp [hks]

/-- Per-key rows of any other user are empty. -/
theorem userRows_key_of_other (server u k : String)
    (cycles : List (Nat × List VPNSession))
    (hcons : ∀ s ∈ allObs cycles, sessionKeyOf s = k → s.username ≠ u) :
    (cycles.map (fun c =>
      ((c.2.filter (fun s =>
        decide (sessionKeyOf s = k) && decide (s.username = u))).map
          (rawRowOf server c.1)))).flatten = [] := by
  rw [List.flatten_eq_nil_iff]
  intro l hl
  rcases List.mem_map.mp hl with ⟨c, hc, rfl⟩
  rw [List.filter_eq_nil_iff.mpr ?_]
  · rfl
  · intro s hs
    have hmem : s ∈ allObs cycles := by
      unfold allObs
      exact List.mem_flatten.mpr ⟨c.2, List.mem_map_of_mem _ hc, hs⟩
    simp only [Bool.and_eq_true, decide_eq_true_eq, not_and]
    intro hks hu
    exact hcons s hmem hks hu

theorem keyBucketDelta_eq_from_none (rows : List TrafficRow) (slot : Nat → Nat)
    (b : Nat) : keyBucketDelta rows slot b = keyBucketDeltaFrom none rows slot b := rfl

theorem userSeries_eq (H : List TrafficRow) (u : String)
    (server skey : Option String) (since : Nat) (slot : Nat → Nat) (b : Nat) :
    userSeries H u server skey since slot b =
      ((sessionKeysOfRows (userChartRows H u server skey since)).map (fun k =>
        keyBucketDelta ((userChartRows H u server skey since).filter
          (fun r => decide (r.session_key = some k))) slot b)).sum := rfl

/-- C5 amended: over any sequence of well-formed cycles (keyed snapshots,
strictly increasing timestamps, no gap-and-reappear churn, keys owned by a
single username), for a window covering the whole history, the sum over all
identities of the per-identity delta series equals the per-server aggregated
series at every time bucket, measured in bytes. -/
theorem conservation_amended (server : String) (since : Nat) (slot : Nat → Nat)
    (cycles : List (Nat × List VPNSession))
    (hgc : GoodCycles [] [] cycles)
    (hpw : List.Pairwise (fun a b2 => a < b2) (cycles.map (fun c => c.1)))
    (hsince : ∀ c ∈ cycles, since < c.1)
    (huser : KeyUserConsistent cycles) :
    ∀ b, usersSeries (runCycles server [] cycles) (usernamesOf (allObs cycles))
        (some server) since slot b =
      serverSeries (runCycles server [] cycles) server since slot b := by
  intro b
  have hserver : serverSeries (runCycles server [] cycles) server since slot b =
      refSeries slot b (fun _ => none) cycles := by
    rw [serverSeries_runCycles server since slot b cycles []
      (by intro r hr; simp at hr) hpw hsince]
    rw [show serverSeries [] server since slot b = 0 from rfl, zero_add]
    exact refSeries_congr slot b cycles _ _ (fun k => rfl)
  have hKnd : (allKeys cycles).Nodup := List.nodup_dedup _
  have hUnd : (usernamesOf (allObs cycles)).Nodup := List.nodup_dedup _
  have huser1 : ∀ u ∈ usernamesOf (allObs cycles),
      userSeries (runCycles server [] cycles) u (some server) none since slot b =
        ((allKeys cycles).map (fun k =>
          keyBucketDeltaFrom none
            ((cycles.map (fun c =>
              ((c.2.filter (fun s =>
                decide (sessionKeyOf s = k) && decide (s.username = u))).map
                  (rawRowOf server c.1)))).flatten) slot b)).sum := by
    intro u _
    rw [userSeries_eq, userChartRows_runCycles server u since cycles hsince]
    rw [List.map_congr_left (fun k _ => by
      rw [keyBucketDelta_eq_from_none, userRows_key])]
    refine sum_map_extend (allKeys cycles) _ (List.nodup_dedup _) hKnd ?_ _ ?_
    · intro x hx
      rcases List.mem_map.mp ((List.mem_dedup).mp hx) with ⟨r, hr, rfl⟩
      rcases List.mem_flatten.mp hr with ⟨l, hl, hrl⟩
      rcases List.mem_map.mp hl with ⟨c, hc, rfl⟩
      rcases List.mem_map.mp hrl with ⟨s, hsm, rfl⟩
      have hsa : s ∈ allObs cycles := by
        unfold allObs
        exact List.mem_flatten.mpr ⟨c.2, List.mem_map_of_mem _ hc,
          (List.mem_filter.mp hsm).1⟩
      unfold allKeys
      exact List.mem_dedup.mpr (by
        simpa [rawRowOf] using List.mem_map_of_mem sessionKeyOf hsa)
    · intro k hk hnk
      have hemp : (cycles.map (fun c =>
          ((c.2.filter (fun s =>
            decide (sessionKeyOf s = k) && decide (s.username = u))).map
              (rawRowOf server c.1)))).flatten = [] := by
        by_contra hne
        rcases List.exists_mem_of_ne_nil _ hne with ⟨r, hr⟩
        rcases List.mem_flatten.mp hr with ⟨l, hl, hrl⟩
        rcases List.mem_map.mp hl with ⟨c, hc, rfl⟩
        rcases List.mem_map.mp hrl with ⟨s, hsm, rfl⟩
        have hsf := List.mem_filter.mp hsm
        have hflags : sessionKeyOf s = k ∧ s.username = u := by
          have := hsf.2
          simp only [Bool.and_eq_true, decide_eq_true_eq] at this
          exact this
        apply hnk
        refine List.mem_dedup.mpr ?_
        refine List.mem_map.mpr ⟨rawRowOf server c.1 s, ?_, by simp [rawRowOf, hflags.1]⟩
        refine List.mem_flatten.mpr ⟨(c.2.filter (fun s =>
          decide (s.username = u))).map (rawRowOf server c.1),
          List.mem_map_of_mem _ hc, ?_⟩
        refine List.mem_map_of_mem _ ?_
        exact List.mem_filter.mpr ⟨hsf.1, by simp [hflags.2]⟩
      rw [hemp, keyBucketDeltaFrom_nil]
  show (((usernamesOf (allObs cycles)).map (fun u =>
    userSeries (runCycles server [] cycles) u (some server) none since slot b)).sum) = _
  rw [List.map_congr_left huser1, sum_map_comm]
  have hperkey : ∀ k ∈ allKeys cycles,
      ((usernamesOf (allObs cycles)).map (fun u =>
        keyBucketDeltaFrom none
          ((cycles.map (fun c =>
            ((c.2.filter (fun s =>
              decide (sessionKeyOf s = k) && decide (s.username = u))).map
                (rawRowOf server c.1)))).flatten) slot b)).sum =
      keyBucketDeltaFrom none (rowsOfKey server k cycles) slot b := by
    intro k hk
    rcases List.mem_map.mp ((List.mem_dedup).mp hk) with ⟨s0, hs0, rfl⟩
    refine sum_map_single _ hUnd s0.username ?_ _ ?_ |>.trans ?_
    · exact List.mem_dedup.mpr (List.mem_map_of_mem _ hs0)
    · intro u hu hne
      rw [userRows_key_of_other server u (sessionKeyOf s0) cycles ?_,
        keyBucketDeltaFrom_nil]
      intro s hsm hks hu2
      exact hne (hu2 ▸ huser s hsm s0 hs0 hks)
    · rw [userRows_key_of_owner server s0.username (sessionKeyOf s0) cycles ?_]
      intro s hsm hks
      exact huser s hsm s0 hs0 hks
  rw [List.map_congr_left hperkey]
  rw [sum_keyBucket_refSeries server slot b cycles [] [] (fun _ => none)
    (allKeys cycles) hgc (fun k => rfl) (by intro k hkm; simp at hkm) hKnd
    (fun s hs => List.mem_dedup.mpr (List.mem_map_of_mem sessionKeyOf hs))]
  exact hserver.symm

/-- Witness for the amended C5: two cycles (alice alone, then alice and bob)
with a window covering both; the summed per-identity series equals the
per-server series at every bucket. -/
theorem conservation_amended_witness :
    usersSeries
      (runCycles ("s1") []
        [(1, [obsOf ("alice") ("s1") ("10.0.0.5") ("4444") 100 0]),
         (2, [obsOf ("alice") ("s1") ("10.0.0.5") ("4444") 150 0,
              obsOf ("bob") ("s1") ("10.0.0.6") ("5555") 10 5])])
      (usernamesOf (allObs
        [(1, [obsOf ("alice") ("s1") ("10.0.0.5") ("4444") 100 0]),
         (2, [obsOf ("alice") ("s1") ("10.0.0.5") ("4444") 150 0,
              obsOf ("bob") ("s1") ("10.0.0.6") ("5555") 10 5])]))
      (some ("s1")) 0 (fun t => t) 2 =
    serverSeries
      (runCycles ("s1") []
        [(1, [obsOf ("alice") ("s1") ("10.0.0.5") ("4444") 100 0]),
         (2, [obsOf ("alice") ("s1") ("10.0.0.5") ("4444") 150 0,
              obsOf ("bob") ("s1") ("10.0.0.6") ("5555") 10 5])])
      ("s1") 0 (fun t => t) 2 := by
  exact conservation_amended ("s1") 0 (fun t => t)
    [(1, [obsOf ("alice") ("s1") ("10.0.0.5") ("4444") 100 0]),
     (2, [obsOf ("alice") ("s1") ("10.0.0.5") ("4444") 150 0,
          obsOf ("bob") ("s1") ("10.0.0.6") ("5555") 10 5])]
    (by exact ⟨by decide, by decide, by decide, by decide, trivial⟩)
    (by decide) (by decide) (by unfold KeyUserConsistent; decide) 2

end OpenVPNStats
